import Mathlib

/-!
Verification of the runtime patching engine in `unsloth/models/rl.py`.

The Python module rewrites the `trl` library's RL trainer and config classes at
start-up: it introspects constructor signatures, synthesizes replacement source
text, rewrites method bodies by textual substitution, and swaps the new classes
into every referencing namespace.  This file gives a shallow embedding of that
machinery:

* Python `str.replace` / the specific `re.sub` patterns used by the module are
  embedded as executable functions on `List Char` (`pyReplaceAll`,
  `pyReplaceFirst`, `pySub`), together with `split`/`join` on newlines.
* The constructor-signature processing loop of `_patch_trl_rl_trainers`
  (lines building `arguments` / `call_args`) is embedded as `processParams`.
* The config-default rewriting table and loop become `replacementsTable` /
  `applyReplacements`.
* The `__init__`-preamble assembly (mixed-precision block, eval/GA checks,
  statistics hook) becomes `trainerExtraArgs` / `trainerPreamble`.
* The namespace-patching control flow of `_patch_trl_rl_trainers` becomes
  `patchStep` / `runPatch` over an explicit environment of attribute maps
  (`Env`), with modules as association lists of named attributes.
* `unsloth_unwrap_model_for_generation`'s context-manager protocol and
  `neftune_post_forward_hook` are embedded with the torch-level operations
  (tensor noise, generation) abstracted as function parameters, since only
  their control flow is claimed.
-/

set_option maxRecDepth 10000

/-! ## Generic string machinery (Python `in`, `str.replace`, `re.sub`, `split`/`join`) -/

/-- Python `needle in hay` on strings: substring test. -/
def containsSub (hay needle : List Char) : Bool :=
  if needle.isPrefixOf hay then true else
  match hay with
  | [] => false
  | _ :: t => containsSub t needle

/-- Worker for `pyReplaceAll`.  The `Nat` argument is the number of characters
still to skip after emitting a replacement (so the recursion is structural). -/
def goRep (pat rep : List Char) : Nat → List Char → List Char
  | _ + 1, [] => []
  | n + 1, _ :: cs => goRep pat rep n cs
  | 0, [] => []
  | 0, c :: cs =>
    if pat.isPrefixOf (c :: cs) then rep ++ goRep pat rep (pat.length - 1) cs
    else c :: goRep pat rep 0 cs

/-- Python `s.replace(pat, rep)`: replace every (leftmost, non-overlapping)
occurrence of `pat` in `s` by `rep`. -/
def pyReplaceAll (s pat rep : List Char) : List Char := goRep pat rep 0 s

/-- Python `s.replace(pat, rep, 1)`: replace only the first occurrence. -/
def pyReplaceFirst (pat rep : List Char) : List Char → List Char
  | [] => []
  | c :: cs =>
    if pat.isPrefixOf (c :: cs) then rep ++ (c :: cs).drop pat.length
    else c :: pyReplaceFirst pat rep cs

/-- Length of a match of the regex `k( = [^,\n]{1,})?,\n` at the start of `s`
(`None` when the regex does not match there).  The optional group is greedy and
`[^,\n]{1,}` cannot backtrack past a comma/newline, so the match is
deterministic. -/
def matchLen (k : List Char) (s : List Char) : Option Nat :=
  if k.isPrefixOf s then
    let s1 := s.drop k.length
    if [' ', '=', ' '].isPrefixOf s1 then
      let s2 := s1.drop 3
      let run := s2.takeWhile (fun c => !(c == ',' || c == '\n'))
      if run.length != 0 && [',', '\n'].isPrefixOf (s2.drop run.length) then
        some (k.length + 3 + run.length + 2)
      else if [',', '\n'].isPrefixOf s1 then some (k.length + 2) else none
    else if [',', '\n'].isPrefixOf s1 then some (k.length + 2) else none
  else none

/-- Worker for `pySub`; the `Nat` argument is the number of characters still to
skip after a replacement was emitted. -/
def goSub (k rep : List Char) : Nat → List Char → List Char
  | _ + 1, [] => []
  | n + 1, _ :: cs => goSub k rep n cs
  | 0, [] => []
  | 0, c :: cs =>
    match matchLen k (c :: cs) with
    | some n => rep ++ goSub k rep (n - 1) cs
    | none => c :: goSub k rep 0 cs

/-- Python `re.sub(f"{k}( = [^,\n]{{1,}})?,\n", rep, s)`: replace every
occurrence of the default-argument pattern for key `k` by `rep`. -/
def pySub (k rep s : List Char) : List Char := goSub k rep 0 s

/-- Python `s.split("\n")`. -/
def pySplitNL : List Char → List (List Char)
  | [] => [[]]
  | c :: r =>
    if c = '\n' then [] :: pySplitNL r
    else
      match pySplitNL r with
      | [] => [[c]]
      | h :: t => (c :: h) :: t

/-- Python `"\n".join(lines)`. -/
def joinNL : List (List Char) → List Char
  | [] => []
  | [x] => x
  | x :: xs => x ++ '\n' :: joinNL xs

/-- `n` spaces. -/
def sp (n : Nat) : List Char := List.replicate n ' '

/-- Python `"\n".join(" "*n + x for x in s.split("\n"))`. -/
def indentBy (n : Nat) (s : List Char) : List Char :=
  joinNL ((pySplitNL s).map (fun x => sp n ++ x))

/-- Python `",sep".join(xs)` on char lists. -/
def intercalateC (sep : List Char) : List (List Char) → List Char
  | [] => []
  | [x] => x
  | x :: xs => x ++ sep ++ intercalateC sep xs

/-! ## The constructor-signature processing loop (rl.py lines 153-174)

A parameter default as classified by the loop: `inspect.Parameter.empty`,
`None`, `bool`, `int`, `float` or `str` are kept; anything else (`other`) is
dropped.  Python's `float` repr cannot be reproduced in Lean, so a float
default carries its rendered repr string (the loop only interpolates it with
`f"{v}"`). -/
inductive PyDefault where
  | empty
  | pnone
  | pbool (b : Bool)
  | pint (n : Int)
  | pfloat (repr : String)
  | pstr (s : String)
  | other
deriving DecidableEq, Repr

/-- Python `f"{v}"` for the scalar defaults kept by the loop. -/
def pyRepr : PyDefault → String
  | .pnone => "None"
  | .pbool true => "True"
  | .pbool false => "False"
  | .pint n => toString n
  | .pfloat r => r
  | .pstr s => s
  | _ => ""

/-- The body of the `for k, v in parameters.items()` loop of
`_patch_trl_rl_trainers` (rl.py lines 159-170), accumulating the `arguments`
and `call_args` lists.  `re.escape("\n")` is the two-character string
backslash-newline. -/
def processParamStep (acc : List String × List String) (kv : String × PyDefault) :
    List String × List String :=
  if kv.1 = "self" then acc else
  let k := kv.1
  let v : PyDefault := if kv.2 = .pstr "\n" then .pstr "\\\n" else kv.2
  match v with
  | .empty => (acc.1 ++ [k], acc.2 ++ [k ++ " = " ++ k])
  | .pstr s => (acc.1 ++ [k ++ " = '" ++ s ++ "'"], acc.2 ++ [k ++ " = " ++ k])
  | .pnone => (acc.1 ++ [k ++ " = " ++ pyRepr .pnone], acc.2 ++ [k ++ " = " ++ k])
  | .pbool b => (acc.1 ++ [k ++ " = " ++ pyRepr (.pbool b)], acc.2 ++ [k ++ " = " ++ k])
  | .pint n => (acc.1 ++ [k ++ " = " ++ pyRepr (.pint n)], acc.2 ++ [k ++ " = " ++ k])
  | .pfloat r => (acc.1 ++ [k ++ " = " ++ pyRepr (.pfloat r)], acc.2 ++ [k ++ " = " ++ k])
  | .other => acc

/-- The whole loop, starting from `arguments = ["self"]`, `call_args = []`. -/
def processParams (params : List (String × PyDefault)) : List String × List String :=
  params.foldl processParamStep (["self"], [])

/-- Specification-side description of one `arguments` entry (used to state the
amended claim C2): empty default gives a bare `k`; a `str` default gives
`k = '<default>'` after `re.escape` of a lone newline; `bool`/`None`/`int`/
`float` give `k = <default>`; anything else is dropped; `self` is skipped. -/
def argEntrySpec (kv : String × PyDefault) : Option String :=
  if kv.1 = "self" then none else
  match kv.2 with
  | .empty => some kv.1
  | .pstr s => some (kv.1 ++ " = '" ++ (if s = "\n" then "\\\n" else s) ++ "'")
  | .pnone => some (kv.1 ++ " = None")
  | .pbool b => some (kv.1 ++ " = " ++ (if b then "True" else "False"))
  | .pint n => some (kv.1 ++ " = " ++ toString n)
  | .pfloat r => some (kv.1 ++ " = " ++ r)
  | .other => none

/-- Specification-side description of one forwarded `call_args` entry:
every kept non-`self` parameter is forwarded as `k = k`. -/
def callEntrySpec (kv : String × PyDefault) : Option String :=
  if kv.1 = "self" then none else
  match kv.2 with
  | .other => none
  | _ => some (kv.1 ++ " = " ++ kv.1)

/-- Rendering of the `arguments` list into the synthesized signature text
(rl.py line 171): leading newline, 8-space indent, `",\n        "` separator. -/
def renderArgumentsText (args : List String) : List Char :=
  '\n' :: (sp 8 ++ intercalateC (',' :: '\n' :: sp 8) (args.map String.data))

/-- Rendering of the `call_args` list (rl.py line 172): 12-space indent. -/
def renderCallArgsText (args : List String) : List Char :=
  '\n' :: (sp 12 ++ intercalateC (',' :: '\n' :: sp 12) (args.map String.data))

/-! ## The config-defaults rewriting table (rl.py lines 308-329) -/

/-- The thirteen-entry `replacements` dict, with each value already rendered
the way the loop renders it (`f"'{v}'"` for the str value, `f"{v}"`
otherwise). -/
def replacementsTable : List (String × String) :=
  [("output_dir", "None"),
   ("logging_nan_inf_filter", "False"),
   ("per_device_train_batch_size", "4"),
   ("gradient_accumulation_steps", "2"),
   ("weight_decay", "0.01"),
   ("warmup_ratio", "0.1"),
   ("seed", "3407"),
   ("optim", "'adamw_8bit'"),
   ("learning_rate", "5e-05"),
   ("per_device_eval_batch_size", "4"),
   ("eval_accumulation_steps", "2"),
   ("torch_empty_cache_steps", "250"),
   ("logging_steps", "1")]

/-- The `for k, v in replacements.items(): arguments = re.sub(...)` loop. -/
def applyReplacements (arguments : List Char) : List Char :=
  replacementsTable.foldl
    (fun acc kv => pySub kv.1.data (kv.1.data ++ " = ".data ++ kv.2.data ++ [',', '\n']) acc)
    arguments

/-- Concrete signature exhibiting the substring behaviour of the rewriting
loop: `overwrite_output_dir` is not a key of the table, but its line ends in
the `output_dir = <default>,` pattern. -/
def c4Params : List (String × PyDefault) :=
  [("self", .empty), ("overwrite_output_dir", .pbool false), ("x", .empty)]

/-- The rendered config `arguments` text for `c4Params`. -/
def c4ArgText : List Char := renderArgumentsText (processParams c4Params).1

/-! ## The peft/vLLM text rewriting of `patch_vllm` (rl.py lines 418-427, 529-536) -/

def peftPat1 : List Char := "elif peft_config is None:".data
def peftPat2 : List Char := "elif peft_config is not None:".data
def peftPat3 : List Char := "if peft_config is None:".data
def peftPat4 : List Char := "if peft_config is not None:".data
def getPeftPat : List Char := "get_peft_model(model, peft_config)".data
def elifFalseTxt : List Char := "elif False:".data
def ifFalseTxt : List Char := "if False:".data
def modelTxt : List Char := "model".data

/-- The five sequential `init.replace(...)` calls of `patch_vllm`
(rl.py lines 423-427), in source order. -/
def peftRewrite (init : List Char) : List Char :=
  pyReplaceAll
    (pyReplaceAll
      (pyReplaceAll
        (pyReplaceAll
          (pyReplaceAll init peftPat1 elifFalseTxt)
          peftPat2 elifFalseTxt)
        peftPat3 ifFalseTxt)
      peftPat4 ifFalseTxt)
    getPeftPat modelTxt

/-- `RLTrainer_source.replace(f"class {name}", f"class _Unsloth{name}", 1)`
(rl.py lines 533-535). -/
def renameFirstClass (name src : List Char) : List Char :=
  pyReplaceFirst ("class ".data ++ name) ("class _Unsloth".data ++ name) src

/-- A structured line of a trainer `__init__` source: either one of the four
peft branch headers behind an indentation, a line containing one
`get_peft_model(model, peft_config)` call, or any other line. -/
inductive SrcLine where
  | ifNone (ind : List Char)
  | ifNotNone (ind : List Char)
  | elifNone (ind : List Char)
  | elifNotNone (ind : List Char)
  | getPeft (pre post : List Char)
  | plain (content : List Char)

/-- The text of a structured line. -/
def renderLine : SrcLine → List Char
  | .ifNone ind => ind ++ peftPat3
  | .ifNotNone ind => ind ++ peftPat4
  | .elifNone ind => ind ++ peftPat1
  | .elifNotNone ind => ind ++ peftPat2
  | .getPeft pre post => pre ++ getPeftPat ++ post
  | .plain content => content

/-- The text the claim expects `patch_vllm` to produce for a structured line. -/
def rewrittenLine : SrcLine → List Char
  | .ifNone ind => ind ++ ifFalseTxt
  | .ifNotNone ind => ind ++ ifFalseTxt
  | .elifNone ind => ind ++ elifFalseTxt
  | .elifNotNone ind => ind ++ elifFalseTxt
  | .getPeft pre post => pre ++ modelTxt ++ post
  | .plain content => content

/-- Well-formedness of a structured line: headers sit behind pure space
indentation; a `get_peft` line contains exactly the displayed occurrence of
any of the five patterns; a plain line contains none of them. -/
def okLine : SrcLine → Prop
  | .ifNone ind => ∀ c ∈ ind, c = ' '
  | .ifNotNone ind => ∀ c ∈ ind, c = ' '
  | .elifNone ind => ∀ c ∈ ind, c = ' '
  | .elifNotNone ind => ∀ c ∈ ind, c = ' '
  | .getPeft pre post =>
      '\n' ∉ pre ∧ '\n' ∉ post ∧
      (∀ i < pre.length, ¬ getPeftPat.isPrefixOf ((pre ++ getPeftPat ++ post).drop i)) ∧
      ¬ (getPeftPat <:+: post) ∧
      ¬ (peftPat1 <:+: (pre ++ getPeftPat ++ post)) ∧
      ¬ (peftPat2 <:+: (pre ++ getPeftPat ++ post)) ∧
      ¬ (peftPat3 <:+: (pre ++ getPeftPat ++ post)) ∧
      ¬ (peftPat4 <:+: (pre ++ getPeftPat ++ post))
  | .plain content =>
      '\n' ∉ content ∧
      ¬ (peftPat1 <:+: content) ∧ ¬ (peftPat2 <:+: content) ∧
      ¬ (peftPat3 <:+: content) ∧ ¬ (peftPat4 <:+: content) ∧
      ¬ (getPeftPat <:+: content)

/-! ## The trainer `__init__` preamble (rl.py lines 189-293) -/

/-- The `mixed_precision` block (rl.py lines 192-205). -/
def mixed_precision : List Char :=
  ("use_bf16 = getattr(args, 'bf16', False)\n" ++
   "use_fp16 = getattr(args, 'fp16', False)\n" ++
   "dtype = getattr(model.config, 'torch_dtype', None)\n" ++
   "if dtype is None: dtype = model.get_input_embeddings().dtype\n" ++
   "from unsloth_zoo.utils import _get_dtype\n" ++
   "dtype = _get_dtype(dtype)\n" ++
   "float16 = dtype == torch.float16\n" ++
   "if float16 and use_bf16: raise TypeError('Unsloth: Model is in float16 precision but you want to use bfloat16 precision. Set fp16 to `True` and bf16 to `False`')\n" ++
   "if not float16 and use_fp16: raise TypeError('Unsloth: Model is in bfloat16 precision but you want to use float16 precision. Set fp16 to `False` and bf16 to `True`')\n" ++
   "if not use_bf16 and not use_fp16:\n" ++
   "    args.fp16 = float16\n" ++
   "    args.bf16 = not float16\n" ++
   "    os.environ['ACCELERATE_MIXED_PRECISION'] = 'fp16' if float16 else 'bf16'\n").data

/-- The `check_eval_dataset` block (rl.py lines 214-218). -/
def check_eval_dataset : List Char :=
  ("if getattr(args, 'eval_dataset', None) is not None and getattr(args, 'eval_strategy', 'no') == 'no':\n" ++
   "    args.eval_strategy = 'steps'\n" ++
   "    if getattr(args, 'eval_steps', None) is None: args.eval_steps = 0.1\n").data

/-- The `check_ga` block (rl.py lines 223-229). -/
def check_ga : List Char :=
  ("ga_steps = getattr(args, 'gradient_accumulation_steps', None)\n" ++
   "if ga_steps is not None and ga_steps > 1:\n" ++
   "    from transformers import __version__ as transformers_version\n" ++
   "    if Version(transformers_version) <= Version('4.45.2'):\n" ++
   "        print('**** Unsloth: Please use our fixed gradient_accumulation_steps by updating transformers, TRL and Unsloth!\\n'\n" ++
   "              '`pip install --upgrade --no-cache-dir --force-reinstall --no-deps unsloth transformers trl unsloth_zoo`')\n").data

/-- The `eval_changes` block (rl.py lines 232-241). -/
def eval_changes : List Char :=
  ("if getattr(args, 'eval_strategy', 'no') != 'no':\n" ++
   "    eval_bsz = getattr(args, 'per_device_eval_batch_size', 8)\n" ++
   "    if eval_bsz == 8 and args.per_device_train_batch_size < eval_bsz: args.per_device_eval_batch_size = args.per_device_train_batch_size\n" ++
   "    if getattr(args, 'eval_accumulation_steps', None) is None and ga_steps is not None: args.eval_accumulation_steps = ga_steps\n" ++
   "fp16_full_eval = getattr(args, 'fp16_full_eval', False)\n" ++
   "bf16_full_eval = getattr(args, 'bf16_full_eval', False)\n" ++
   "if args.fp16 and bf16_full_eval: args.bf16_full_eval = False; args.fp16_full_eval = True\n" ++
   "if args.bf16 and fp16_full_eval: args.bf16_full_eval = True; args.fp16_full_eval = False\n" ++
   "if not bf16_full_eval and not fp16_full_eval: args.bf16_full_eval = args.bf16; args.fp16_full_eval = args.fp16\n").data

/-- The `length_check` block (rl.py lines 247-255).  Note that the Python
statement ends at line 255 (no trailing backslash), so the `elif` lines
256-260 of the source are a separate dead string expression and are NOT part
of this block. -/
def length_check : List Char :=
  ("if 'max_seq_length' not in locals() and not hasattr(args, 'max_seq_length'):\n" ++
   "    pass\n" ++
   "else:\n" ++
   "    model_max_seq_length = getattr(model, 'max_seq_length', None)\n" ++
   "    args_max_seq_length  = getattr(args,  'max_seq_length', None)\n" ++
   "    if args_max_seq_length is None and model_max_seq_length is not None:\n" ++
   "        max_seq_length = model.max_seq_length\n" ++
   "        if hasattr(args, 'max_seq_length'): args.max_seq_length = max_seq_length\n").data

/-- The `training_check` block (rl.py lines 266-273). -/
def training_check : List Char :=
  ("if model is not None and hasattr(model, 'for_training'):\n" ++
   "    model.for_training()\n" ++
   "if 'tokenizer' in locals() and hasattr(tokenizer, 'padding_side'): tokenizer.padding_side = 'right'\n" ++
   "if 'processing_class' in locals():\n" ++
   "    if hasattr(processing_class, 'padding_side'): processing_class.padding_side = 'right'\n" ++
   "    if hasattr(processing_class, tokenizer) and hasattr(processing_class.tokenizer, 'padding_side'): processing_class.tokenizer.padding_side = 'right'\n").data

/-- The fixed head of the statistics hook appended to every preamble
(rl.py lines 291-293), up to the interpolated trainer file name. -/
def statsHead : List Char :=
  ("from unsloth_zoo.logging_utils import PatchRLStatistics\n" ++
   "PatchRLStatistics('").data

/-- The full statistics hook text for a given trainer file name. -/
def statsBlock (tf : List Char) : List Char := statsHead ++ tf ++ "')\n".data

/-- The `extra_args` string assembled for the synthesized trainer `__init__`
(rl.py lines 190-293), as a function of the forwarded `call_args` text `ca`
and the trainer file name `tf`.  Each block is appended under exactly the
condition the source tests (`"args" in call_args`, `"model" in call_args`,
`"eval_dataset" in call_args`); the `neftune` block goes to `RLTrainer_post`,
not here. -/
def trainerExtraArgs (ca tf : List Char) : List Char :=
  (if containsSub ca "args".data && containsSub ca "model".data then mixed_precision else []) ++
  ((if containsSub ca "args".data then
      (if containsSub ca "eval_dataset".data then check_eval_dataset else []) ++
      check_ga ++ eval_changes
    else []) ++
   ((if containsSub ca "model".data then length_check ++ training_check else []) ++
    statsBlock tf))

/-- The synthesized trainer `__init__` preamble: `extra_args` re-indented by
eight spaces per line (rl.py lines 296-297). -/
def trainerPreamble (ca tf : List Char) : List Char :=
  indentBy 8 (trainerExtraArgs ca tf)

/-! ## The namespace-patching control flow (rl.py lines 123-148, 370-415) -/

/-- A named Python attribute value (a class, function or other object carrying
`__name__`); only the name is relevant to the patching control flow. -/
structure PyClass where
  name : String
deriving DecidableEq, Repr

/-- Attribute lookup in an association-list namespace (Python `getattr`,
raising — here `none` — when the key is absent). -/
def getV {α : Type} : List (String × α) → String → Option α
  | [], _ => none
  | (k', v) :: t, k => if k' = k then some v else getV t k

/-- Attribute assignment (Python `setattr`): replaces the binding in place when
the key exists, appends otherwise (insertion-ordered, like Python dicts). -/
def setV {α : Type} : List (String × α) → String → α → List (String × α)
  | [], k, v => [(k, v)]
  | p :: t, k, v => if p.1 = k then (k, v) :: t else p :: setV t k v

/-- An attribute namespace of named values. -/
abbrev AttrMap := List (String × PyClass)

/-- The mutable state touched by `_patch_trl_rl_trainers`: the `trl` package
namespace, the `trl.trainer` package namespace, and the `trl.trainer.<file>`
submodules (keyed by trainer file name). -/
structure Env where
  trl : AttrMap
  trlTrainer : AttrMap
  modules : List (String × AttrMap)
deriving DecidableEq, Repr

/-- Python `x.lower()` on the characters of a string. -/
def lowerChars (s : String) : List Char := s.data.map Char.toLower

/-- Python `trainer_file.split("_")[0]`. -/
def splitHead (tf : String) : List Char := tf.data.takeWhile (fun c => c != '_')

/-- The filter on `dir(trainer)` selecting trainer-class names
(rl.py line 133). -/
def trainerNameFilter (tf : String) (keys : List String) : List String :=
  keys.filter (fun x =>
    ("Trainer".data.isSuffixOf x.data && !(x == "Trainer")) &&
    containsSub (lowerChars x) (splitHead tf))

/-- The filter on `dir(trainer)` selecting config-class names
(rl.py line 134). -/
def configNameFilter (tf : String) (keys : List String) : List String :=
  keys.filter (fun x =>
    ("Config".data.isSuffixOf x.data && !(x == "Config")) &&
    containsSub (lowerChars x) (splitHead tf))

/-- `RLTrainer.__name__.startswith("Unsloth")` (rl.py lines 147-148). -/
def isUnsloth (c : PyClass) : Bool := "Unsloth".data.isPrefixOf c.name.data

/-- The outcome record of a successful patch: the updated environment, the two
resolved attribute names, and the two synthesized classes substituted for
them. -/
structure PatchOut where
  env : Env
  trainerName : String
  configName : String
  newTrainer : PyClass
  newConfig : PyClass
deriving DecidableEq, Repr

/-- How one call of `_patch_trl_rl_trainers` terminates: with an uncaught
exception, with one of the guarded early `return`s (state untouched), or with
the six namespace substitutions performed. -/
inductive PatchResult where
  | raised
  | returnedEarly
  | patched (out : PatchOut)
deriving DecidableEq, Repr

/-- The control flow of `_patch_trl_rl_trainers` (rl.py lines 123-148 and
370-415).  The synthesized classes are named `Unsloth<Name>` because the
`RLTrainer_replacement` template (lines 91 and 109) declares
`class Unsloth{RLConfig_name}` / `class Unsloth{RLTrainer_name}` and
`create_new_function` compiles that text; the source-text pipeline itself is
embedded separately (`processParams`, `applyReplacements`, `peftRewrite`,
`trainerExtraArgs`) since it does not influence this control flow.  The six
`exec` assignments of lines 407-414 become the six `setV` updates, in source
order. -/
def patchStep (env : Env) (trainer_file : String) : PatchResult :=
  match getV env.modules trainer_file with
  | none => .returnedEarly
  | some trainer =>
    match trainerNameFilter trainer_file (trainer.map Prod.fst),
          configNameFilter trainer_file (trainer.map Prod.fst) with
    | [RLTrainer_name], [RLConfig_name] =>
      match getV trainer RLTrainer_name, getV trainer RLConfig_name with
      | some RLTrainer, some RLConfig =>
        if isUnsloth RLTrainer then .returnedEarly
        else if isUnsloth RLConfig then .returnedEarly
        else
          match getV env.trlTrainer RLTrainer_name, getV env.trlTrainer RLConfig_name with
          | some _, some _ =>
            .patched
              { env :=
                  { trl := setV (setV env.trl RLTrainer_name ⟨"Unsloth" ++ RLTrainer_name⟩)
                      RLConfig_name ⟨"Unsloth" ++ RLConfig_name⟩,
                    trlTrainer := setV (setV env.trlTrainer RLTrainer_name ⟨"Unsloth" ++ RLTrainer_name⟩)
                      RLConfig_name ⟨"Unsloth" ++ RLConfig_name⟩,
                    modules := setV
                      (setV env.modules trainer_file
                        (setV trainer RLTrainer_name ⟨"Unsloth" ++ RLTrainer_name⟩))
                      trainer_file
                      (setV (setV trainer RLTrainer_name ⟨"Unsloth" ++ RLTrainer_name⟩)
                        RLConfig_name ⟨"Unsloth" ++ RLConfig_name⟩) },
                trainerName := RLTrainer_name,
                configName := RLConfig_name,
                newTrainer := ⟨"Unsloth" ++ RLTrainer_name⟩,
                newConfig := ⟨"Unsloth" ++ RLConfig_name⟩ }
          | _, _ => .raised
      | _, _ => .returnedEarly
    | _, _ => .returnedEarly

/-- The state after one call of `_patch_trl_rl_trainers`: the early returns
leave the environment untouched; an uncaught exception at the doc-lookup stage
propagates before any of the six assignments, so the state is also
untouched. -/
def runPatch (env : Env) (trainer_file : String) : Env :=
  match patchStep env trainer_file with
  | .patched out => out.env
  | _ => env

/-! ## `PatchFastRL` (rl.py lines 551-555) and friends -/

/-- The observable calls made by `PatchFastRL`. -/
inductive RLAction (α : Type) where
  | patchRL (flm : α)
  | patchTrainers
  | stats (algorithm : String)
deriving DecidableEq

/-- `PatchFastRL(algorithm, FastLanguageModel)`: `PatchRL` iff a model class
was given, then `patch_trl_rl_trainers()`, then `PatchRLStatistics(algorithm)`
iff an algorithm was given. -/
def PatchFastRL {α : Type} (algorithm : Option String) (flm : Option α) : List (RLAction α) :=
  (match flm with | some f => [.patchRL f] | none => []) ++
  [.patchTrainers] ++
  (match algorithm with | some a => [.stats a] | none => [])

/-! ## `unsloth_unwrap_model_for_generation` (rl.py lines 33-57) -/

/-- The state of the (unwrapped) model visible to the context manager: its
`generate` attribute, whether it is in training mode, and how many times
`FastLanguageModel.for_training(model)` has run. -/
structure RLGenState (G : Type) where
  unwrappedGen : G
  trainingMode : Bool
  forTrainingCalls : Nat
deriving DecidableEq

/-- `FastLanguageModel.for_inference(unwrapped_model)`: puts the model in
inference mode and may replace its `generate` (abstracted as `inferGen`). -/
def enterInference {G : Type} (inferGen : G → G) (st : RLGenState G) : RLGenState G :=
  { st with trainingMode := false, unwrappedGen := inferGen st.unwrappedGen }

/-- The context manager body of `unsloth_unwrap_model_for_generation`:
`for_inference`; save `original_generate`; install the cloning wrapper
(`cloneWrap`); run the `with`-body (which may itself mutate the state and may
raise, returning `some e`); then — in a `finally`, on both paths — restore
`generate` to the saved function and call `FastLanguageModel.for_training`,
re-raising any exception. -/
def unsloth_unwrap_model_for_generation {G ε : Type} (inferGen cloneWrap : G → G)
    (body : RLGenState G → Option ε × RLGenState G) (st : RLGenState G) :
    Option ε × RLGenState G :=
  let st1 := enterInference inferGen st
  let original_generate := st1.unwrappedGen
  let r := body { st1 with unwrappedGen := cloneWrap original_generate }
  (r.1, { r.2 with
            unwrappedGen := original_generate,
            trainingMode := true,
            forTrainingCalls := r.2.forTrainingCalls + 1 })

/-! ## `neftune_post_forward_hook` (rl.py lines 75-81) -/

/-- The module object seen by the hook: its `training` flag and its
`neftune_noise_alpha` attribute. -/
structure NefModule (A : Type) where
  training : Bool
  neftune_noise_alpha : A
deriving DecidableEq

/-- `neftune_post_forward_hook(module, input, output)`: when training, add
uniform noise scaled by `neftune_noise_alpha` (the torch tensor arithmetic and
RNG are abstracted as `addNoise`); otherwise return `output` itself. -/
def neftune_post_forward_hook {A T I : Type} (addNoise : A → T → T)
    (module : NefModule A) (input : I) (output : T) : T :=
  if module.training then addNoise module.neftune_noise_alpha output else output

/-! ## Witness data -/

/-- A minimal environment on which `_patch_trl_rl_trainers` succeeds for
`grpo_trainer`. -/
def envW : Env :=
  { trl := [("GRPOTrainer", ⟨"GRPOTrainer"⟩), ("GRPOConfig", ⟨"GRPOConfig"⟩)],
    trlTrainer := [("GRPOTrainer", ⟨"GRPOTrainer"⟩), ("GRPOConfig", ⟨"GRPOConfig"⟩)],
    modules := [("grpo_trainer",
      [("GRPOTrainer", ⟨"GRPOTrainer"⟩), ("GRPOConfig", ⟨"GRPOConfig"⟩)])] }

/-- The explicit outcome of patching `envW`. -/
def outW : PatchOut :=
  { env :=
      { trl := [("GRPOTrainer", ⟨"UnslothGRPOTrainer"⟩), ("GRPOConfig", ⟨"UnslothGRPOConfig"⟩)],
        trlTrainer := [("GRPOTrainer", ⟨"UnslothGRPOTrainer"⟩), ("GRPOConfig", ⟨"UnslothGRPOConfig"⟩)],
        modules := [("grpo_trainer",
          [("GRPOTrainer", ⟨"UnslothGRPOTrainer"⟩), ("GRPOConfig", ⟨"UnslothGRPOConfig"⟩)])] },
    trainerName := "GRPOTrainer",
    configName := "GRPOConfig",
    newTrainer := ⟨"UnslothGRPOTrainer"⟩,
    newConfig := ⟨"UnslothGRPOConfig"⟩ }

/-! # Theorems -/

/-! ## Association-list namespace lemmas -/

theorem getV_setV_self {α : Type} (m : List (String × α)) (k : String) (v : α) :
    getV (setV m k v) k = some v := by
  induction m with
  | nil => simp [setV, getV]
  | cons p t ih =>
    by_cases hp : p.1 = k
    · simp [setV, getV, hp]
    · simp [setV, getV, hp, ih]

theorem getV_setV_ne {α : Type} (m : List (String × α)) (k k' : String) (v : α)
    (h : k' ≠ k) : getV (setV m k v) k' = getV m k' := by
  induction m with
  | nil => simp [setV, getV, Ne.symm h]
  | cons p t ih =>
    by_cases hp : p.1 = k
    · simp [setV, getV, hp, Ne.symm h, ih]
    · by_cases hp' : p.1 = k'
      · simp [setV, getV, hp, hp', h]
      · simp [setV, getV, hp, hp', ih]

theorem keys_setV_of_mem {α : Type} (m : List (String × α)) (k : String) (v : α)
    (h : k ∈ m.map Prod.fst) : (setV m k v).map Prod.fst = m.map Prod.fst := by
  induction m with
  | nil => simp at h
  | cons p t ih =>
    by_cases hp : p.1 = k
    · simp [setV, hp]
    · simp only [List.map_cons, List.mem_cons] at h
      rcases h with h | h
      · exact absurd h.symm hp
      · simp [setV, hp, ih h]

theorem getV_mem {α : Type} {m : List (String × α)} {k : String} {v : α}
    (h : getV m k = some v) : k ∈ m.map Prod.fst := by
  induction m with
  | nil => simp [getV] at h
  | cons p t ih =>
    by_cases hp : p.1 = k
    · rw [List.map_cons, hp]
      exact List.mem_cons_self _ _
    · simp only [getV] at h
      rw [if_neg hp] at h
      rw [List.map_cons]
      exact List.mem_cons_of_mem _ (ih h)

theorem filter_singleton_pred {α : Type} {p : α → Bool} {l : List α} {x : α}
    (h : l.filter p = [x]) : p x = true := by
  have hx : x ∈ l.filter p := by rw [h]; exact List.mem_singleton_self x
  exact (List.mem_filter.mp hx).2

/-- A name selected by the trainer filter is never equal to a name selected by
the config filter (one ends in `Trainer`, the other in `Config`). -/
theorem trainer_name_ne_config_name {tf : String} {keys : List String} {a b : String}
    (ha : trainerNameFilter tf keys = [a]) (hb : configNameFilter tf keys = [b]) :
    a ≠ b := by
  intro hab
  have ha' := filter_singleton_pred ha
  have hb' := filter_singleton_pred hb
  simp only [Bool.and_eq_true] at ha' hb'
  have hsa : "Trainer".data <:+ a.data := by
    have := ha'.1.1
    rwa [ List.isSuffixOf_iff_suffix] at this
  have hsb : "Config".data <:+ b.data := by
    have := hb'.1.1
    rwa [ List.isSuffixOf_iff_suffix] at this
  rw [hab] at hsa
  rcases List.suffix_or_suffix_of_suffix hsa hsb with h | h
  · exact absurd h (by decide)
  · exact absurd h (by decide)

/-- Inversion of a successful `patchStep`: recover the intermediate lookups and
the explicit shape of the resulting environment. -/
theorem patchStep_patched_elim {env : Env} {tf : String} {out : PatchOut}
    (h : patchStep env tf = .patched out) :
    ∃ (trainer : AttrMap) (K1 K2 : String) (T C : PyClass),
      getV env.modules tf = some trainer ∧
      trainerNameFilter tf (trainer.map Prod.fst) = [K1] ∧
      configNameFilter tf (trainer.map Prod.fst) = [K2] ∧
      getV trainer K1 = some T ∧ getV trainer K2 = some C ∧
      isUnsloth T = false ∧ isUnsloth C = false ∧
      out = { env :=
                { trl := setV (setV env.trl K1 ⟨"Unsloth" ++ K1⟩) K2 ⟨"Unsloth" ++ K2⟩,
                  trlTrainer := setV (setV env.trlTrainer K1 ⟨"Unsloth" ++ K1⟩) K2
                    ⟨"Unsloth" ++ K2⟩,
                  modules := setV (setV env.modules tf (setV trainer K1 ⟨"Unsloth" ++ K1⟩)) tf
                    (setV (setV trainer K1 ⟨"Unsloth" ++ K1⟩) K2 ⟨"Unsloth" ++ K2⟩) },
              trainerName := K1, configName := K2,
              newTrainer := ⟨"Unsloth" ++ K1⟩, newConfig := ⟨"Unsloth" ++ K2⟩ } := by
  cases hm : getV env.modules tf with
  | none => simp [patchStep, hm] at h
  | some trainer =>
    cases hf1 : trainerNameFilter tf (trainer.map Prod.fst) with
    | nil => simp [patchStep, hm, hf1] at h
    | cons K1 t1 =>
      cases t1 with
      | cons x xs => simp [patchStep, hm, hf1] at h
      | nil =>
        cases hf2 : configNameFilter tf (trainer.map Prod.fst) with
        | nil => simp [patchStep, hm, hf1, hf2] at h
        | cons K2 t2 =>
          cases t2 with
          | cons y ys => simp [patchStep, hm, hf1, hf2] at h
          | nil =>
            cases hr1 : getV trainer K1 with
            | none => simp [patchStep, hm, hf1, hf2, hr1] at h
            | some T =>
              cases hr2 : getV trainer K2 with
              | none => simp [patchStep, hm, hf1, hf2, hr1, hr2] at h
              | some C =>
                cases hT : isUnsloth T with
                | true => simp [patchStep, hm, hf1, hf2, hr1, hr2, hT] at h
                | false =>
                  cases hC : isUnsloth C with
                  | true => simp [patchStep, hm, hf1, hf2, hr1, hr2, hT, hC] at h
                  | false =>
                    cases hd1 : getV env.trlTrainer K1 with
                    | none => simp [patchStep, hm, hf1, hf2, hr1, hr2, hT, hC, hd1] at h
                    | some d1 =>
                      cases hd2 : getV env.trlTrainer K2 with
                      | none =>
                        simp [patchStep, hm, hf1, hf2, hr1, hr2, hT, hC, hd1, hd2] at h
                      | some d2 =>
                        refine ⟨trainer, K1, K2, T, C, rfl, hf1, hf2, hr1, hr2, hT, hC, ?_⟩
                        simp [patchStep, hm, hf1, hf2, hr1, hr2, hT, hC, hd1, hd2] at h
                        exact h.symm

/-! ## Claim C1: a completed patch substitutes both classes in all three namespaces -/

/-- C1.  Whenever `_patch_trl_rl_trainers` completes without an early return
(`patchStep` yields `patched out`), the synthesized `Unsloth` trainer class and
`Unsloth` config class are bound to the original attribute names in all three
referencing namespaces: `trl.<Name>`, `trl.trainer.<Name>`, and
`trl.trainer.<trainer_file>.<Name>`. -/
theorem c1_substituted_in_all_three_namespaces (env : Env) (tf : String) (out : PatchOut)
    (h : patchStep env tf = .patched out) :
    getV out.env.trl out.trainerName = some out.newTrainer ∧
    getV out.env.trlTrainer out.trainerName = some out.newTrainer ∧
    getV out.env.trl out.configName = some out.newConfig ∧
    getV out.env.trlTrainer out.configName = some out.newConfig ∧
    ∃ tm, getV out.env.modules tf = some tm ∧
      getV tm out.trainerName = some out.newTrainer ∧
      getV tm out.configName = some out.newConfig := by
  obtain ⟨trainer, K1, K2, T, C, hm, hf1, hf2, hr1, hr2, hT, hC, hout⟩ :=
    patchStep_patched_elim h
  subst hout
  have hne : K1 ≠ K2 := trainer_name_ne_config_name hf1 hf2
  refine ⟨?_, ?_, ?_, ?_, ?_⟩
  · rw [getV_setV_ne _ _ _ _ hne, getV_setV_self]
  · rw [getV_setV_ne _ _ _ _ hne, getV_setV_self]
  · rw [getV_setV_self]
  · rw [getV_setV_self]
  · exact ⟨_, getV_setV_self _ _ _,
      by rw [getV_setV_ne _ _ _ _ hne, getV_setV_self],
      by rw [getV_setV_self]⟩

/-- C1 witness: on the concrete environment `envW`, patching `grpo_trainer`
succeeds with outcome `outW` and the six substitutions hold. -/
theorem c1_witness :
    patchStep envW "grpo_trainer" = .patched outW ∧
    (getV outW.env.trl outW.trainerName = some outW.newTrainer ∧
     getV outW.env.trlTrainer outW.trainerName = some outW.newTrainer ∧
     getV outW.env.trl outW.configName = some outW.newConfig ∧
     getV outW.env.trlTrainer outW.configName = some outW.newConfig ∧
     ∃ tm, getV outW.env.modules "grpo_trainer" = some tm ∧
       getV tm outW.trainerName = some outW.newTrainer ∧
       getV tm outW.configName = some outW.newConfig) :=
  ⟨by decide, c1_substituted_in_all_three_namespaces envW "grpo_trainer" outW (by decide)⟩

/-! ## Claim C5: failed or ambiguous reflective lookups return early, state unchanged -/

/-- C5.  If the trainer-module lookup fails, or the module does not expose
exactly one matching `Trainer`-suffixed and one matching `Config`-suffixed
name, or resolving the selected class name fails, then
`_patch_trl_rl_trainers` returns without raising and without modifying any
attribute of `trl`, `trl.trainer`, or the trainer module. -/
theorem c5_lookup_failure_leaves_state_unchanged (env : Env) (tf : String)
    (h : getV env.modules tf = none ∨
      ∃ tm, getV env.modules tf = some tm ∧
        ((trainerNameFilter tf (tm.map Prod.fst)).length ≠ 1 ∨
         (configNameFilter tf (tm.map Prod.fst)).length ≠ 1 ∨
         (∃ n, trainerNameFilter tf (tm.map Prod.fst) = [n] ∧ getV tm n = none) ∨
         (∃ c, configNameFilter tf (tm.map Prod.fst) = [c] ∧ getV tm c = none))) :
    patchStep env tf = .returnedEarly ∧ runPatch env tf = env := by
  have hstep : patchStep env tf = .returnedEarly := by
    rcases h with hm | ⟨tm, hm, hcase⟩
    · simp [patchStep, hm]
    · cases hf1 : trainerNameFilter tf (tm.map Prod.fst) with
      | nil => simp [patchStep, hm, hf1]
      | cons K1 t1 =>
        cases t1 with
        | cons x xs => simp [patchStep, hm, hf1]
        | nil =>
          cases hf2 : configNameFilter tf (tm.map Prod.fst) with
          | nil => simp [patchStep, hm, hf1, hf2]
          | cons K2 t2 =>
            cases t2 with
            | cons y ys => simp [patchStep, hm, hf1, hf2]
            | nil =>
              rcases hcase with hlen1 | hlen2 | ⟨n, hn, hres⟩ | ⟨c, hc, hres⟩
              · rw [hf1] at hlen1; simp at hlen1
              · rw [hf2] at hlen2; simp at hlen2
              · rw [hf1] at hn
                have : n = K1 := by simpa using congrArg (fun l => l.headI) hn.symm
                subst this
                simp [patchStep, hm, hf1, hf2, hres]
              · rw [hf2] at hc
                have : c = K2 := by simpa using congrArg (fun l => l.headI) hc.symm
                subst this
                cases hr1 : getV tm K1 with
                | none => simp [patchStep, hm, hf1, hf2, hr1]
                | some T => simp [patchStep, hm, hf1, hf2, hr1, hres]
  exact ⟨hstep, by simp [runPatch, hstep]⟩

/-- C5 witness: on the empty environment every lookup fails and the state is
returned unchanged. -/
theorem c5_witness :
    patchStep ⟨[], [], []⟩ "grpo_trainer" = .returnedEarly ∧
    runPatch ⟨[], [], []⟩ "grpo_trainer" = ⟨[], [], []⟩ :=
  c5_lookup_failure_leaves_state_unchanged ⟨[], [], []⟩ "grpo_trainer" (Or.inl rfl)

/-! ## Claim C8: patching is idempotent -/

/-- C8.  Every class synthesized by `_patch_trl_rl_trainers` is named
`Unsloth<Name>`, and the function returns early whenever the resolved classes
are already `Unsloth`-named, so a second run on the result of a first run
changes nothing: `runPatch` is idempotent. -/
theorem c8_patch_idempotent (env : Env) (tf : String) :
    runPatch (runPatch env tf) tf = runPatch env tf := by
  cases h : patchStep env tf with
  | raised => simp [runPatch, h]
  | returnedEarly => simp [runPatch, h]
  | patched out =>
    obtain ⟨trainer, K1, K2, T, C, hm, hf1, hf2, hr1, hr2, hT, hC, hout⟩ :=
      patchStep_patched_elim h
    have hne : K1 ≠ K2 := trainer_name_ne_config_name hf1 hf2
    have hrun1 : runPatch env tf = out.env := by simp [runPatch, h]
    rw [hrun1]
    -- the second run resolves the freshly installed Unsloth-named trainer class
    have hk1 : K1 ∈ trainer.map Prod.fst := getV_mem hr1
    have hk2 : K2 ∈ (setV trainer K1 ⟨"Unsloth" ++ K1⟩).map Prod.fst := by
      rw [keys_setV_of_mem _ _ _ hk1]
      exact getV_mem hr2
    have hmods : getV out.env.modules tf =
        some (setV (setV trainer K1 ⟨"Unsloth" ++ K1⟩) K2 ⟨"Unsloth" ++ K2⟩) := by
      rw [hout]
      exact getV_setV_self _ _ _
    have hkeys : (setV (setV trainer K1 ⟨"Unsloth" ++ K1⟩) K2 ⟨"Unsloth" ++ K2⟩).map Prod.fst
        = trainer.map Prod.fst := by
      rw [keys_setV_of_mem _ _ _ hk2, keys_setV_of_mem _ _ _ hk1]
    have hres : getV (setV (setV trainer K1 ⟨"Unsloth" ++ K1⟩) K2 ⟨"Unsloth" ++ K2⟩) K1
        = some ⟨"Unsloth" ++ K1⟩ := by
      rw [getV_setV_ne _ _ _ _ hne, getV_setV_self]
    have hu : isUnsloth (⟨"Unsloth" ++ K1⟩ : PyClass) = true := by
      simp only [isUnsloth, String.data_append]
      rw [ List.isPrefixOf_iff_prefix]
      · exact List.prefix_append _ _
    have hres2 : getV (setV (setV trainer K1 ⟨"Unsloth" ++ K1⟩) K2 ⟨"Unsloth" ++ K2⟩) K2
        = some ⟨"Unsloth" ++ K2⟩ := getV_setV_self _ _ _
    have hstep2 : patchStep out.env tf = .returnedEarly := by
      simp [patchStep, hmods, hkeys, hf1, hf2, hres, hres2, hu]
    simp [runPatch, hstep2]

/-! ## Claim C2: the synthesized argument list and forwarded call arguments -/

/-- C2 (amended).  The signature-processing loop produces exactly: a bare `k`
for an empty default; `k = '<default>'` for a `str` default, EXCEPT that a
default equal to the single newline string is first passed through
`re.escape` and appears as `k = '\<newline>'`; `k = <default>` for `bool`,
`None`, `int` and `float` defaults; nothing for any other default type; and it
forwards every kept non-`self` parameter as `k = k`. -/
theorem c2_argument_synthesis (params : List (String × PyDefault)) :
    processParams params =
      ("self" :: params.filterMap argEntrySpec, params.filterMap callEntrySpec) := by
  suffices haux : ∀ (ps : List (String × PyDefault)) (a b : List String),
      ps.foldl processParamStep (a, b) =
        (a ++ ps.filterMap argEntrySpec, b ++ ps.filterMap callEntrySpec) by
    simpa [processParams] using haux params ["self"] []
  intro ps
  induction ps with
  | nil => intro a b; simp
  | cons kv rest ih =>
    intro a b
    rcases kv with ⟨k, d⟩
    by_cases hk : k = "self"
    · subst hk
      simp [processParamStep, argEntrySpec, callEntrySpec, List.filterMap_cons, ih a b]
    · cases d with
      | pstr s =>
        by_cases hs : s = "\n"
        · subst hs
          simp [processParamStep, argEntrySpec, callEntrySpec, hk,
            List.filterMap_cons, ih, List.append_assoc]
        · simp [processParamStep, argEntrySpec, callEntrySpec, hk, hs,
            List.filterMap_cons, ih, List.append_assoc]
      | pbool b' =>
        cases b' <;>
          simp [processParamStep, argEntrySpec, callEntrySpec, pyRepr, hk,
            List.filterMap_cons, ih, List.append_assoc]
      | pnone =>
        have hlit : " = " ++ "None" = " = None" := rfl
        simp [processParamStep, argEntrySpec, callEntrySpec, pyRepr, hk,
          List.filterMap_cons, ih, List.append_assoc, String.append_assoc, hlit]
      | _ =>
        simp [processParamStep, argEntrySpec, callEntrySpec, pyRepr, hk,
          List.filterMap_cons, ih, List.append_assoc]

/-- C2 counterexample: a `str` default equal to `"\n"` does not appear as
`k = '<default>'` (which would be `resp_template = '<newline>'`); the loop
re-escapes it to `resp_template = '\<newline>'`. -/
theorem c2_newline_default_counterexample :
    (processParams [("self", .empty), ("resp_template", .pstr "\n")]).1 =
      ["self", "resp_template = '\\\n'"] ∧
    "resp_template = '\n'" ∉
      (processParams [("self", .empty), ("resp_template", .pstr "\n")]).1 := by
  decide

/-! ## Claim C9: the generation context manager always restores state -/

/-- C9.  For every body (normal or raising — the body result's first component
is the propagated exception), `unsloth_unwrap_model_for_generation` leaves the
unwrapped model's `generate` equal to the `original_generate` saved right
after `for_inference` (i.e. before the cloning wrapper was installed), puts
the model back in training mode via `FastLanguageModel.for_training(model)`
(counted by `forTrainingCalls`), and propagates the body's exception. -/
theorem c9_finally_restores_generate_and_calls_for_training
    (G ε : Type) (inferGen cloneWrap : G → G)
    (body : RLGenState G → Option ε × RLGenState G) (st : RLGenState G) :
    (unsloth_unwrap_model_for_generation inferGen cloneWrap body st).2.unwrappedGen
        = (enterInference inferGen st).unwrappedGen ∧
    (unsloth_unwrap_model_for_generation inferGen cloneWrap body st).2.trainingMode = true ∧
    (unsloth_unwrap_model_for_generation inferGen cloneWrap body st).2.forTrainingCalls
        = (body { enterInference inferGen st with
            unwrappedGen := cloneWrap (enterInference inferGen st).unwrappedGen
          }).2.forTrainingCalls + 1 ∧
    (unsloth_unwrap_model_for_generation inferGen cloneWrap body st).1
        = (body { enterInference inferGen st with
            unwrappedGen := cloneWrap (enterInference inferGen st).unwrappedGen }).1 :=
  ⟨rfl, rfl, rfl, rfl⟩

/-! ## Claim C10: the NEFTune hook is the identity outside training -/

/-- C10.  Whenever `module.training` is false, `neftune_post_forward_hook`
returns the output value unchanged, whatever the noise function, module
attributes, input and output are. -/
theorem c10_hook_identity_when_not_training
    (A T I : Type) (addNoise : A → T → T) (module : NefModule A) (input : I) (output : T)
    (h : module.training = false) :
    neftune_post_forward_hook addNoise module input output = output := by
  simp [neftune_post_forward_hook, h]

/-- C10 witness: a concrete non-training module returns its output object
unchanged. -/
theorem c10_witness :
    (NefModule.mk false (0 : Nat)).training = false ∧
    neftune_post_forward_hook (fun _ t => t + 1) (NefModule.mk false (0 : Nat))
      (0 : Nat) (5 : Nat) = 5 :=
  ⟨rfl, c10_hook_identity_when_not_training Nat Nat Nat (fun _ t => t + 1)
    (NefModule.mk false 0) 0 5 rfl⟩

/-! ## Newline split/join lemmas (for the preamble indentation transform) -/

theorem pySplitNL_ne_nil (s : List Char) : pySplitNL s ≠ [] := by
  cases s with
  | nil => simp [pySplitNL]
  | cons c r =>
    by_cases hc : c = '\n'
    · simp [pySplitNL, hc]
    · simp only [pySplitNL, hc, if_false]
      cases h : pySplitNL r <;> simp

theorem pySplitNL_append_newline (x s : List Char) :
    ∃ L, L ≠ [] ∧ pySplitNL (x ++ '\n' :: s) = L ++ pySplitNL s := by
  induction x with
  | nil => exact ⟨[[]], by simp, by simp [pySplitNL]⟩
  | cons c x' ih =>
    obtain ⟨L', hne, heq⟩ := ih
    by_cases hc : c = '\n'
    · refine ⟨[] :: L', by simp, ?_⟩
      simp [pySplitNL, hc, heq]
    · cases L' with
      | nil => exact absurd rfl hne
      | cons h' t' =>
        refine ⟨(c :: h') :: t', by simp, ?_⟩
        simp [pySplitNL, hc, heq]

theorem pySplitNL_of_no_newline (u : List Char) (h : '\n' ∉ u) :
    pySplitNL (u ++ ['\n']) = [u, []] := by
  induction u with
  | nil => simp [pySplitNL]
  | cons c u' ih =>
    simp only [List.mem_cons, not_or] at h
    have hc : ¬ c = '\n' := fun hh => h.1 hh.symm
    simp [pySplitNL, hc, ih h.2]

theorem joinNL_append (N : List (List Char)) (hN : N ≠ []) :
    ∀ M, M ≠ [] → joinNL (M ++ N) = joinNL M ++ '\n' :: joinNL N := by
  intro M
  induction M with
  | nil => intro h; exact absurd rfl h
  | cons m M' ih =>
    intro _
    cases M' with
    | nil =>
      cases N with
      | nil => exact absurd rfl hN
      | cons n N' => simp [joinNL]
    | cons m2 M'' =>
      have hrec := ih (by simp)
      simp only [List.cons_append] at hrec ⊢
      have e1 : joinNL (m :: m2 :: (M'' ++ N)) = m ++ '\n' :: joinNL (m2 :: (M'' ++ N)) := rfl
      have e2 : joinNL (m :: m2 :: M'') = m ++ '\n' :: joinNL (m2 :: M'') := rfl
      rw [e1, hrec, e2]
      simp [List.append_assoc]

/-- The statistics call always ends the indented preamble: for any prefix text
`V` and newline-free trainer file name, indenting `V ++ statsBlock tf` by
eight spaces yields a text ending in the indented `PatchRLStatistics` line. -/
theorem preamble_statsCall_suffix (V tf : List Char) (htf : '\n' ∉ tf) :
    (sp 8 ++ ("PatchRLStatistics('".data ++ (tf ++ ("')".data ++ '\n' :: sp 8)))) <:+
      indentBy 8 (V ++ statsBlock tf) := by
  have hsh : statsHead =
      "from unsloth_zoo.logging_utils import PatchRLStatistics".data ++
        '\n' :: "PatchRLStatistics('".data := by decide
  have hnl1 : '\n' ∉ "PatchRLStatistics('".data := by decide
  have hnl2 : '\n' ∉ "')".data := by decide
  have hq : "')\n".data = "')".data ++ ['\n'] := by decide
  have h1 : V ++ statsBlock tf =
      (V ++ "from unsloth_zoo.logging_utils import PatchRLStatistics".data) ++
        '\n' :: (("PatchRLStatistics('".data ++ (tf ++ "')".data)) ++ ['\n']) := by
    simp [statsBlock, hsh, hq, List.append_assoc]
  have hnl : '\n' ∉ ("PatchRLStatistics('".data ++ (tf ++ "')".data)) := by
    intro hmem
    rcases List.mem_append.mp hmem with h | h
    · exact hnl1 h
    · rcases List.mem_append.mp h with h | h
      · exact htf h
      · exact hnl2 h
  obtain ⟨L, hLne, hsplit⟩ := pySplitNL_append_newline
    (V ++ "from unsloth_zoo.logging_utils import PatchRLStatistics".data)
    ((("PatchRLStatistics('".data ++ (tf ++ "')".data)) ++ ['\n']))
  rw [indentBy, h1, hsplit, pySplitNL_of_no_newline _ hnl]
  rw [List.map_append]
  rw [joinNL_append _ (by simp) _ (by simpa using hLne)]
  refine ⟨joinNL (List.map (fun x => sp 8 ++ x) L) ++ ['\n'], ?_⟩
  simp [joinNL, List.append_assoc]

/-! ## Claim C7: the statistics hook -/

/-- C7.  (a) For every `call_args` text and newline-free trainer file name,
the synthesized trainer `__init__` preamble ends with the (indented) call
`PatchRLStatistics('<trainer_file>')`, regardless of the constructor
signature.  (b) `PatchFastRL` invokes `PatchRLStatistics(algorithm)` exactly
when `algorithm` is not `None` (and with that argument), and invokes
`PatchRL(FastLanguageModel)` exactly when `FastLanguageModel` is not
`None`. -/
theorem c7_statistics_hook (α : Type) (ca tf : List Char)
    (algorithm : Option String) (flm : Option α) (htf : '\n' ∉ tf) :
    ((sp 8 ++ ("PatchRLStatistics('".data ++ (tf ++ ("')".data ++ '\n' :: sp 8)))) <:+
        trainerPreamble ca tf) ∧
    ((∃ a, RLAction.stats a ∈ PatchFastRL algorithm flm) ↔ algorithm ≠ none) ∧
    (∀ a, (RLAction.stats a ∈ PatchFastRL algorithm flm) ↔ algorithm = some a) ∧
    ((∃ f, RLAction.patchRL f ∈ PatchFastRL algorithm flm) ↔ flm ≠ none) := by
  refine ⟨?_, ?_, ?_, ?_⟩
  · have h : trainerExtraArgs ca tf =
        ((if containsSub ca "args".data && containsSub ca "model".data then
            mixed_precision else []) ++
         ((if containsSub ca "args".data then
             (if containsSub ca "eval_dataset".data then check_eval_dataset else []) ++
             check_ga ++ eval_changes
           else []) ++
          (if containsSub ca "model".data then length_check ++ training_check else []))) ++
        statsBlock tf := by
      simp [trainerExtraArgs, List.append_assoc]
    rw [trainerPreamble, h]
    exact preamble_statsCall_suffix _ tf htf
  · cases algorithm <;> cases flm <;> simp [PatchFastRL]
  · intro a
    cases algorithm <;> cases flm <;> simp [PatchFastRL, eq_comm]
  · cases algorithm <;> cases flm <;> simp [PatchFastRL]

/-- C7 witness: concrete instantiation with `call_args` empty, trainer file
`grpo_trainer`, an algorithm and a model class given. -/
theorem c7_witness :
    '\n' ∉ "grpo_trainer".data ∧
    (((sp 8 ++ ("PatchRLStatistics('".data ++ ("grpo_trainer".data ++ ("')".data ++ '\n' :: sp 8)))) <:+
        trainerPreamble [] "grpo_trainer".data) ∧
     ((∃ a, RLAction.stats a ∈ PatchFastRL (some "grpo") (some 0)) ↔ (some "grpo") ≠ none) ∧
     (∀ a, (RLAction.stats a ∈ PatchFastRL (some "grpo") (some (0 : Nat))) ↔ (some "grpo") = some a) ∧
     ((∃ f, RLAction.patchRL f ∈ PatchFastRL (some "grpo") (some (0 : Nat))) ↔ (some (0 : Nat)) ≠ none)) :=
  ⟨by decide, c7_statistics_hook Nat [] "grpo_trainer".data (some "grpo") (some 0) (by decide)⟩

/-! ## Lemmas about the `re.sub` default-argument pattern -/

theorem matchLen_nil (k : List Char) : matchLen k [] = none := by
  cases k with
  | nil => rfl
  | cons a as => rfl

theorem matchLen_ge_two {k s : List Char} {n : Nat} (h : matchLen k s = some n) : 2 ≤ n := by
  simp only [matchLen] at h
  split at h
  · split at h
    · split at h
      · rw [Option.some_inj] at h; omega
      · split at h
        · rw [Option.some_inj] at h; omega
        · cases h
    · split at h
      · rw [Option.some_inj] at h; omega
      · cases h
  · cases h

theorem goSub_skip (k rep : List Char) : ∀ (n : Nat) (s : List Char),
    goSub k rep n s = goSub k rep 0 (s.drop n) := by
  intro n
  induction n with
  | zero => intro s; rfl
  | succ n ih =>
    intro s
    cases s with
    | nil => simp [goSub]
    | cons c cs => simpa [goSub] using ih cs

theorem pySub_match_head {k rep mid post : List Char}
    (h : matchLen k (mid ++ post) = some mid.length) :
    pySub k rep (mid ++ post) = rep ++ pySub k rep post := by
  have h2 : 2 ≤ mid.length := matchLen_ge_two h
  cases mid with
  | nil => simp at h2
  | cons m ms =>
    show goSub k rep 0 (m :: (ms ++ post)) = rep ++ goSub k rep 0 post
    have : goSub k rep 0 (m :: (ms ++ post)) = rep ++ goSub k rep ((m :: ms).length - 1) (ms ++ post) := by
      rw [goSub]
      rw [show ((m :: (ms ++ post))) = ((m :: ms) ++ post) by simp] at *
      rw [h]
    rw [this, goSub_skip]
    simp

theorem pySub_step_no_match {k rep : List Char} {c : Char} {cs : List Char}
    (h : matchLen k (c :: cs) = none) :
    pySub k rep (c :: cs) = c :: pySub k rep cs := by
  show goSub k rep 0 (c :: cs) = c :: goSub k rep 0 cs
  rw [goSub, h]

theorem pySub_no_match (k rep : List Char) :
    ∀ s, (∀ i, matchLen k (s.drop i) = none) → pySub k rep s = s := by
  intro s
  induction s with
  | nil => intro _; rfl
  | cons c cs ih =>
    intro h
    rw [pySub_step_no_match (by simpa using h 0)]
    rw [ih (fun i => by simpa using h (i + 1))]

theorem takeWhile_all_append {p : Char → Bool} {v : List Char} (r : List Char) {c : Char}
    (hv : ∀ x ∈ v, p x = true) (hc : p c = false) :
    (v ++ c :: r).takeWhile p = v := by
  induction v with
  | nil => simp [List.takeWhile, hc]
  | cons a v' ih =>
    have ha : p a = true := hv a (by simp)
    simp only [List.cons_append, List.takeWhile_cons, ha]
    simp only [if_true]
    rw [ih (fun x hx => hv x (by simp [hx]))]

theorem matchLen_at_occurrence (k v post : List Char) (hv : v ≠ [])
    (hvchars : ∀ c ∈ v, ¬(c = ',' ∨ c = '\n')) :
    matchLen k (k ++ (" = ".data ++ (v ++ (',' :: '\n' :: post))))
      = some (k.length + 3 + v.length + 2) := by
  have hpre : k.isPrefixOf (k ++ (" = ".data ++ (v ++ (',' :: '\n' :: post)))) = true := by
    rw [ List.isPrefixOf_iff_prefix]
    exact List.prefix_append _ _
  have hdrop : (k ++ (" = ".data ++ (v ++ (',' :: '\n' :: post)))).drop k.length
      = " = ".data ++ (v ++ (',' :: '\n' :: post)) := List.drop_left _ _
  have hrun : ((v ++ (',' :: '\n' :: post))).takeWhile (fun c => !(c == ',' || c == '\n')) = v := by
    refine takeWhile_all_append _ ?_ (by decide)
    intro x hx
    have := hvchars x hx
    simp only [Bool.not_eq_true', Bool.or_eq_false_iff, beq_eq_false_iff_ne]
    exact ⟨fun h => this (Or.inl h), fun h => this (Or.inr h)⟩
  simp only [matchLen, hpre, if_true, hdrop]
  have h3 : (" = ".data ++ (v ++ (',' :: '\n' :: post))).drop 3 = v ++ (',' :: '\n' :: post) := rfl
  have hsp : [' ', '=', ' '].isPrefixOf (" = ".data ++ (v ++ (',' :: '\n' :: post))) = true := by
    rw [ List.isPrefixOf_iff_prefix]
    exact List.prefix_append _ _
  simp only [hsp, if_true, h3, hrun]
  have hlen : v.length ≠ 0 := by simpa [List.length_eq_zero] using hv
  have hdrop2 : (v ++ (',' :: '\n' :: post)).drop v.length = ',' :: '\n' :: post :=
    List.drop_left _ _
  simp [hlen, hdrop2]

theorem matchLen_at_bare (k post : List Char) :
    matchLen k (k ++ (',' :: '\n' :: post)) = some (k.length + 2) := by
  have hpre : k.isPrefixOf (k ++ (',' :: '\n' :: post)) = true := by
    rw [ List.isPrefixOf_iff_prefix]
    exact List.prefix_append _ _
  have hdrop : (k ++ (',' :: '\n' :: post)).drop k.length = ',' :: '\n' :: post :=
    List.drop_left _ _
  simp only [matchLen, hpre, if_true, hdrop]
  have hsp : [' ', '=', ' '].isPrefixOf (',' :: '\n' :: post) = false := by
    simp [List.isPrefixOf]
  simp [hsp]

theorem pySub_distrib (k rep : List Char) :
    ∀ (pre : List Char) (mid post : List Char),
      matchLen k (mid ++ post) = some mid.length →
      (∀ i < pre.length, matchLen k ((pre ++ (mid ++ post)).drop i) = none) →
      pySub k rep (pre ++ (mid ++ post)) = pre ++ (rep ++ pySub k rep post) := by
  intro pre
  induction pre with
  | nil =>
    intro mid post hmid _
    simpa using pySub_match_head hmid
  | cons c pre' ih =>
    intro mid post hmid hpre
    have h0 : matchLen k (c :: (pre' ++ (mid ++ post))) = none := by
      simpa using hpre 0 (by simp)
    simp only [List.cons_append]
    rw [pySub_step_no_match h0]
    rw [ih mid post hmid (fun i hi => by simpa using hpre (i + 1) (by simpa using hi))]

/-! ## Claim C4: the config-defaults rewriting loop -/

/-- C4 counterexample.  The rewriting is substring-based: in the rendered
config arguments for `c4Params`, the parameter `overwrite_output_dir` — which
is not named in the thirteen-entry table — has its line rewritten by the
`output_dir` rule, so its default does NOT stay unchanged as the claim
states. -/
theorem c4_substring_counterexample :
    ("overwrite_output_dir = False".data <:+: c4ArgText) ∧
    ¬ ("overwrite_output_dir = False".data <:+: applyReplacements c4ArgText) ∧
    ("overwrite_output_dir = None".data <:+: applyReplacements c4ArgText) := by
  decide

/-- C4 (amended).  For each table key `k` (applied in insertion order with
replacement text `k = <table-value>,\n`, string values quoted), the `re.sub`
loop replaces every occurrence of the substring pattern `k( = <v>)?,\n` —
wherever it starts, in particular also inside a longer parameter name such as
`overwrite_output_dir` — and leaves any text without such an occurrence
unchanged.  The first two conjuncts characterize one substitution at an
occurrence with and without a default, the third is the no-occurrence case,
and the fourth exhibits the table loop rewriting the non-table parameter
`overwrite_output_dir` of `c4Params`. -/
theorem c4_rewrite_characterization :
    (∀ (k val pre v post : List Char), v ≠ [] → (∀ c ∈ v, ¬(c = ',' ∨ c = '\n')) →
      (∀ i < pre.length,
        matchLen k ((pre ++ ((k ++ " = ".data ++ v ++ [',', '\n']) ++ post)).drop i) = none) →
      pySub k (k ++ " = ".data ++ val ++ [',', '\n'])
          (pre ++ ((k ++ " = ".data ++ v ++ [',', '\n']) ++ post))
        = pre ++ ((k ++ " = ".data ++ val ++ [',', '\n']) ++
            pySub k (k ++ " = ".data ++ val ++ [',', '\n']) post)) ∧
    (∀ (k val pre post : List Char),
      (∀ i < pre.length, matchLen k ((pre ++ ((k ++ [',', '\n']) ++ post)).drop i) = none) →
      pySub k (k ++ " = ".data ++ val ++ [',', '\n']) (pre ++ ((k ++ [',', '\n']) ++ post))
        = pre ++ ((k ++ " = ".data ++ val ++ [',', '\n']) ++
            pySub k (k ++ " = ".data ++ val ++ [',', '\n']) post)) ∧
    (∀ (k rep s : List Char), (∀ i, matchLen k (s.drop i) = none) → pySub k rep s = s) ∧
    applyReplacements c4ArgText =
      "\n        self,\n        overwrite_output_dir = None,\n        x".data := by
  refine ⟨?_, ?_, pySub_no_match, by decide⟩
  · intro k val pre v post hv hvchars hpre
    have hshape : (k ++ " = ".data ++ v ++ [',', '\n']) ++ post
        = k ++ (" = ".data ++ (v ++ (',' :: '\n' :: post))) := by
      simp [List.append_assoc]
    have hlen : (k ++ " = ".data ++ v ++ [',', '\n']).length
        = k.length + 3 + v.length + 2 := by
      simp [List.length_append]
      omega
    have hmid : matchLen k ((k ++ " = ".data ++ v ++ [',', '\n']) ++ post)
        = some (k ++ " = ".data ++ v ++ [',', '\n']).length := by
      rw [hshape, hlen]
      exact matchLen_at_occurrence k v post hv hvchars
    exact pySub_distrib k _ pre _ post hmid hpre
  · intro k val pre post hpre
    have hshape : (k ++ [',', '\n']) ++ post = k ++ (',' :: '\n' :: post) := by
      simp [List.append_assoc]
    have hlen : (k ++ [',', '\n']).length = k.length + 2 := by
      simp [List.length_append]
    have hmid : matchLen k ((k ++ [',', '\n']) ++ post)
        = some (k ++ [',', '\n']).length := by
      rw [hshape, hlen]
      exact matchLen_at_bare k post
    exact pySub_distrib k _ pre _ post hmid hpre

/-- C4 witness: the `output_dir` rule applied inside the longer name
`overwrite_output_dir`, with the side conditions discharged concretely. -/
theorem c4_witness :
    pySub "output_dir".data ("output_dir".data ++ " = ".data ++ "None".data ++ [',', '\n'])
        ("\n        overwrite_".data ++
          (("output_dir".data ++ " = ".data ++ "False".data ++ [',', '\n']) ++ "        x".data))
      = "\n        overwrite_".data ++
          (("output_dir".data ++ " = ".data ++ "None".data ++ [',', '\n']) ++
            pySub "output_dir".data
              ("output_dir".data ++ " = ".data ++ "None".data ++ [',', '\n'])
              "        x".data) :=
  c4_rewrite_characterization.1 "output_dir".data "None".data "\n        overwrite_".data
    "False".data "        x".data (by decide) (by decide) (by decide)

/-! ## Lemmas about Python `str.replace` -/

theorem goRep_skip (pat rep : List Char) : ∀ (n : Nat) (s : List Char),
    goRep pat rep n s = goRep pat rep 0 (s.drop n) := by
  intro n
  induction n with
  | zero => intro s; rfl
  | succ n ih =>
    intro s
    cases s with
    | nil => simp [goRep]
    | cons c cs => simpa [goRep] using ih cs

theorem replaceAll_nil (pat rep : List Char) : pyReplaceAll [] pat rep = [] := rfl

theorem replaceAll_match {pat rep s : List Char} (hne : pat ≠ [])
    (hp : pat.isPrefixOf s = true) :
    pyReplaceAll s pat rep = rep ++ pyReplaceAll (s.drop pat.length) pat rep := by
  cases pat with
  | nil => exact absurd rfl hne
  | cons p ps =>
    cases s with
    | nil => simp [List.isPrefixOf] at hp
    | cons c cs =>
      show goRep (p :: ps) rep 0 (c :: cs) = _
      rw [goRep, if_pos hp, goRep_skip]
      rfl

theorem replaceAll_step {pat rep : List Char} {c : Char} {cs : List Char}
    (h : pat.isPrefixOf (c :: cs) = false) :
    pyReplaceAll (c :: cs) pat rep = c :: pyReplaceAll cs pat rep := by
  show goRep pat rep 0 (c :: cs) = _
  rw [goRep, if_neg (by simp [h])]
  rfl

theorem replaceAll_of_no_occurrence {pat rep : List Char} :
    ∀ s, ¬ (pat <:+: s) → pyReplaceAll s pat rep = s := by
  intro s
  induction s with
  | nil => intro _; rfl
  | cons c cs ih =>
    intro h
    cases hb : pat.isPrefixOf (c :: cs) with
    | true =>
      exact absurd ( List.IsPrefix.isInfix (( List.isPrefixOf_iff_prefix).mp hb)) h
    | false =>
      rw [replaceAll_step hb, ih fun hin => h (List.infix_cons hin)]

theorem replaceAll_distrib {pat rep : List Char} (hne : pat ≠ []) :
    ∀ (a b : List Char),
      (∀ i < a.length, ¬ (pat.isPrefixOf ((a ++ (pat ++ b)).drop i) = true)) →
      pyReplaceAll (a ++ (pat ++ b)) pat rep = a ++ (rep ++ pyReplaceAll b pat rep) := by
  intro a
  induction a with
  | nil =>
    intro b _
    have hp : pat.isPrefixOf (pat ++ b) = true := by
      rw [ List.isPrefixOf_iff_prefix]
      exact List.prefix_append _ _
    simpa [List.drop_left] using replaceAll_match hne hp
  | cons c a' ih =>
    intro b h
    have h0 : pat.isPrefixOf (c :: (a' ++ (pat ++ b))) = false := by
      have h00 := h 0 (by simp)
      rw [List.drop_zero, Bool.not_eq_true, List.cons_append] at h00
      exact h00
    simp only [List.cons_append]
    rw [replaceAll_step h0, ih b (fun i hi => by simpa using h (i + 1) (by simpa using hi))]

theorem replaceFirst_distrib {pat rep : List Char} (hne : pat ≠ []) :
    ∀ (a b : List Char),
      (∀ i < a.length, ¬ (pat.isPrefixOf ((a ++ (pat ++ b)).drop i) = true)) →
      pyReplaceFirst pat rep (a ++ (pat ++ b)) = a ++ (rep ++ b) := by
  intro a
  induction a with
  | nil =>
    intro b _
    cases pat with
    | nil => exact absurd rfl hne
    | cons p ps =>
      have hp : (p :: ps).isPrefixOf (p :: (ps ++ b)) = true := by
        rw [ List.isPrefixOf_iff_prefix, ← List.cons_append]
        exact List.prefix_append _ _
      show pyReplaceFirst (p :: ps) rep ((p :: ps) ++ b) = [] ++ (rep ++ b)
      rw [List.cons_append, pyReplaceFirst, if_pos hp, ← List.cons_append, List.drop_left]
      simp
  | cons c a' ih =>
    intro b h
    have h0 : pat.isPrefixOf (c :: (a' ++ (pat ++ b))) = false := by
      have h00 := h 0 (by simp)
      rw [List.drop_zero, Bool.not_eq_true, List.cons_append] at h00
      exact h00
    simp only [List.cons_append]
    rw [pyReplaceFirst, if_neg (by simp [h0])]
    rw [ih b (fun i hi => by simpa using h (i + 1) (by simpa using hi))]

theorem replaceAll_no_newline {pat rep : List Char} (hrep : '\n' ∉ rep) :
    ∀ (n : Nat) (s : List Char), s.length ≤ n → '\n' ∉ s → '\n' ∉ pyReplaceAll s pat rep := by
  intro n
  induction n with
  | zero =>
    intro s hlen _
    have : s = [] := List.length_eq_zero.mp (Nat.le_zero.mp hlen)
    subst this
    simp [replaceAll_nil]
  | succ n ih =>
    intro s hlen hs
    cases s with
    | nil => simp [replaceAll_nil]
    | cons c cs =>
      cases hb : pat.isPrefixOf (c :: cs) with
      | true =>
        have hne : pat ≠ [] ∨ pat = [] := by tauto
        rcases hne with hne | rfl
        · rw [replaceAll_match hne hb]
          intro hmem
          rcases List.mem_append.mp hmem with h | h
          · exact hrep h
          · have hdropmem : '\n' ∈ (c :: cs).drop pat.length → '\n' ∈ (c :: cs) :=
              List.mem_of_mem_drop
            have hlen2 : ((c :: cs).drop pat.length).length ≤ n := by
              cases pat with
              | nil => simp at hne
              | cons p ps =>
                simp only [List.length_cons] at hlen ⊢
                simp only [List.drop_succ_cons, List.length_drop]
                omega
            exact ih _ hlen2 (fun hm => hs (hdropmem hm)) h
        · rw [show pyReplaceAll (c :: cs) [] rep = rep ++ goRep [] rep 0 cs from by
            show goRep [] rep 0 (c :: cs) = _
            rw [goRep, if_pos (show ([] : List Char).isPrefixOf (c :: cs) = true from rfl)]
            rfl]
          intro hmem
          rcases List.mem_append.mp hmem with h | h
          · exact hrep h
          · have : '\n' ∈ pyReplaceAll cs [] rep := h
            exact ih cs (by simpa using hlen) (fun hm => hs (by simp [hm])) this
      | false =>
        rw [replaceAll_step hb]
        intro hmem
        rcases List.mem_cons.mp hmem with h | h
        · exact hs (List.mem_cons.mpr (Or.inl h))
        · exact ih cs (by simpa using hlen) (fun hm => hs (by simp [hm])) h

theorem replaceAll_space_indent {pat rep : List Char} (hne : pat ≠ [])
    (hhd : pat.head? ≠ some ' ') :
    ∀ (ind t : List Char), (∀ x ∈ ind, x = ' ') →
      pyReplaceAll (ind ++ t) pat rep = ind ++ pyReplaceAll t pat rep := by
  intro ind
  induction ind with
  | nil => intro t _; rfl
  | cons c ind' ih =>
    intro t hind
    have hc : c = ' ' := hind c (by simp)
    have hb : pat.isPrefixOf (c :: (ind' ++ t)) = false := by
      subst hc
      cases pat with
      | nil => exact absurd rfl hne
      | cons p ps =>
        have hp : p ≠ ' ' := fun hp => hhd (by simp [hp])
        simp [List.isPrefixOf, hp]
    simp only [List.cons_append]
    rw [replaceAll_step hb, ih t (fun x hx => hind x (by simp [hx]))]

theorem replaceAll_step_newline {pat rep : List Char} (hne : pat ≠ []) (hnlp : '\n' ∉ pat) :
    ∀ b : List Char, pyReplaceAll ('\n' :: b) pat rep = '\n' :: pyReplaceAll b pat rep := by
  intro b
  cases pat with
  | nil => exact absurd rfl hne
  | cons p ps =>
    have hp : p ≠ '\n' := fun hp => hnlp (by simp [hp])
    exact replaceAll_step (by simp [List.isPrefixOf, hp])

theorem replaceAll_append_newline {pat rep : List Char} (hne : pat ≠ []) (hnlp : '\n' ∉ pat) :
    ∀ (n : Nat) (a b : List Char), a.length ≤ n →
      pyReplaceAll (a ++ '\n' :: b) pat rep
        = pyReplaceAll a pat rep ++ '\n' :: pyReplaceAll b pat rep := by
  intro n
  induction n with
  | zero =>
    intro a b hlen
    have : a = [] := List.length_eq_zero.mp (Nat.le_zero.mp hlen)
    subst this
    simpa [replaceAll_nil] using replaceAll_step_newline hne hnlp b
  | succ n ih =>
    intro a b hlen
    cases a with
    | nil => simpa [replaceAll_nil] using replaceAll_step_newline hne hnlp b
    | cons c a' =>
      cases hb : pat.isPrefixOf (c :: (a' ++ '\n' :: b)) with
      | true =>
        have hw : pat <+: (c :: a') ++ ('\n' :: b) := by
          have := ( List.isPrefixOf_iff_prefix).mp hb
          simpa using this
        have hpa : pat <+: (c :: a') := by
          rcases List.prefix_or_prefix_of_prefix hw (List.prefix_append (c :: a') ('\n' :: b))
            with h | h
          · exact h
          · obtain ⟨e, he⟩ := h
            cases e with
            | nil => rw [← he]; simp
            | cons x xs =>
              exfalso
              have hw2 : (c :: a') ++ (x :: xs) <+: (c :: a') ++ ('\n' :: b) := he ▸ hw
              have hx : (x :: xs) <+: ('\n' :: b) := (List.prefix_append_right_inj _).mp hw2
              obtain ⟨t, ht⟩ := hx
              have hx2 : x = '\n' := by
                have := congrArg (fun l => l.head?) ht
                simpa using this
              apply hnlp
              rw [← he]
              exact List.mem_append.mpr (Or.inr (by simp [hx2]))
        have hbool : pat.isPrefixOf (c :: a') = true :=
          ( List.isPrefixOf_iff_prefix).mpr hpa
        have hpa_len : pat.length ≤ (c :: a').length := List.IsPrefix.length_le hpa
        show pyReplaceAll ((c :: a') ++ ('\n' :: b)) pat rep
            = pyReplaceAll (c :: a') pat rep ++ '\n' :: pyReplaceAll b pat rep
        rw [replaceAll_match hne
            (show pat.isPrefixOf ((c :: a') ++ ('\n' :: b)) = true from hb),
          replaceAll_match hne hbool]
        rw [List.drop_append_of_le_length hpa_len]
        rw [ih ((c :: a').drop pat.length) b
          (by
            have h1 : 1 ≤ pat.length := by
              cases pat with
              | nil => exact absurd rfl hne
              | cons p ps => simp
            simp only [List.length_drop]
            simp only [List.length_cons] at hlen ⊢
            omega)]
        simp [List.append_assoc]
      | false =>
        have hb2 : pat.isPrefixOf (c :: a') = false := by
          cases hbb : pat.isPrefixOf (c :: a') with
          | false => rfl
          | true =>
            exfalso
            have hpp : pat <+: (c :: a') := ( List.isPrefixOf_iff_prefix).mp hbb
            have : pat <+: (c :: a') ++ ('\n' :: b) :=
              List.IsPrefix.trans hpp (List.prefix_append _ _)
            have : pat.isPrefixOf (c :: (a' ++ '\n' :: b)) = true := by
              rw [ List.isPrefixOf_iff_prefix]
              simpa using this
            rw [this] at hb
            cases hb
        rw [show (c :: a') ++ '\n' :: b = c :: (a' ++ '\n' :: b) from rfl,
          replaceAll_step hb, replaceAll_step hb2,
          ih a' b (by simpa using Nat.le_of_succ_le_succ hlen)]
        rfl

theorem replaceAll_joinNL {pat rep : List Char} (hne : pat ≠ []) (hnlp : '\n' ∉ pat) :
    ∀ lines : List (List Char), (∀ l0 ∈ lines, '\n' ∉ l0) →
      pyReplaceAll (joinNL lines) pat rep
        = joinNL (lines.map (fun l0 => pyReplaceAll l0 pat rep)) := by
  intro lines
  induction lines with
  | nil => intro _; rfl
  | cons x xs ih =>
    intro h
    cases xs with
    | nil => rfl
    | cons y ys =>
      have e1 : joinNL (x :: y :: ys) = x ++ '\n' :: joinNL (y :: ys) := rfl
      rw [e1, replaceAll_append_newline hne hnlp x.length x _ (Nat.le_refl _)]
      rw [ih (fun l0 hm => h l0 (by simp [hm]))]
      rfl

theorem noNL_map_replaceAll {pat rep : List Char} (hrep : '\n' ∉ rep)
    {lines : List (List Char)} (h : ∀ l0 ∈ lines, '\n' ∉ l0) :
    ∀ l0 ∈ lines.map (fun x => pyReplaceAll x pat rep), '\n' ∉ l0 := by
  intro l0 hm
  obtain ⟨l1, hm1, rfl⟩ := List.mem_map.mp hm
  exact replaceAll_no_newline hrep l1.length l1 (Nat.le_refl _) (h l1 hm1)

/-- Space indentation passes through all five `patch_vllm` replacements. -/
theorem peftRewrite_indent (ind t : List Char) (hind : ∀ c ∈ ind, c = ' ') :
    peftRewrite (ind ++ t) = ind ++ peftRewrite t := by
  simp only [peftRewrite]
  rw [replaceAll_space_indent (by decide) (by decide) ind t hind]
  rw [replaceAll_space_indent (by decide) (by decide) ind _ hind]
  rw [replaceAll_space_indent (by decide) (by decide) ind _ hind]
  rw [replaceAll_space_indent (by decide) (by decide) ind _ hind]
  rw [replaceAll_space_indent (by decide) (by decide) ind _ hind]

/-- The five replacements distribute over the lines of a source text. -/
theorem peftRewrite_joinNL (lines : List (List Char)) (h : ∀ l0 ∈ lines, '\n' ∉ l0) :
    peftRewrite (joinNL lines) = joinNL (lines.map peftRewrite) := by
  have h1 := @noNL_map_replaceAll peftPat1 elifFalseTxt (by decide) _ h
  have h2 := @noNL_map_replaceAll peftPat2 elifFalseTxt (by decide) _ h1
  have h3 := @noNL_map_replaceAll peftPat3 ifFalseTxt (by decide) _ h2
  have h4 := @noNL_map_replaceAll peftPat4 ifFalseTxt (by decide) _ h3
  simp only [peftRewrite]
  rw [replaceAll_joinNL (by decide) (by decide) lines h]
  rw [replaceAll_joinNL (by decide) (by decide) _ h1]
  rw [replaceAll_joinNL (by decide) (by decide) _ h2]
  rw [replaceAll_joinNL (by decide) (by decide) _ h3]
  rw [replaceAll_joinNL (by decide) (by decide) _ h4]
  simp only [List.map_map]
  have hmap : List.map
      ((fun l0 => pyReplaceAll l0 getPeftPat modelTxt) ∘
        (fun x => pyReplaceAll x peftPat4 ifFalseTxt) ∘
          (fun x => pyReplaceAll x peftPat3 ifFalseTxt) ∘
            (fun x => pyReplaceAll x peftPat2 elifFalseTxt) ∘
              fun x => pyReplaceAll x peftPat1 elifFalseTxt) lines
      = List.map peftRewrite lines :=
    List.map_congr_left (fun l1 _ => rfl)
  rw [hmap]

theorem renderLine_no_newline (l0 : SrcLine) (h : okLine l0) : '\n' ∉ renderLine l0 := by
  cases l0 with
  | ifNone ind =>
    simp only [renderLine]
    intro hm
    rcases List.mem_append.mp hm with hm | hm
    · exact absurd (h '\n' hm) (by decide)
    · exact absurd hm (by decide)
  | ifNotNone ind =>
    simp only [renderLine]
    intro hm
    rcases List.mem_append.mp hm with hm | hm
    · exact absurd (h '\n' hm) (by decide)
    · exact absurd hm (by decide)
  | elifNone ind =>
    simp only [renderLine]
    intro hm
    rcases List.mem_append.mp hm with hm | hm
    · exact absurd (h '\n' hm) (by decide)
    · exact absurd hm (by decide)
  | elifNotNone ind =>
    simp only [renderLine]
    intro hm
    rcases List.mem_append.mp hm with hm | hm
    · exact absurd (h '\n' hm) (by decide)
    · exact absurd hm (by decide)
  | getPeft pre post =>
    obtain ⟨hnp, hnq, _⟩ := h
    simp only [renderLine]
    intro hm
    rcases List.mem_append.mp hm with hm | hm
    · rcases List.mem_append.mp hm with hm | hm
      · exact hnp hm
      · exact absurd hm (by decide)
    · exact hnq hm
  | plain content => exact h.1

/-- The five `patch_vllm` replacements act on a single well-formed line exactly
as the claim describes: branch headers become `if False:`/`elif False:`, the
`get_peft_model(model, peft_config)` call becomes `model`, and any other line
is untouched. -/
theorem peftRewrite_line (l0 : SrcLine) (h : okLine l0) :
    peftRewrite (renderLine l0) = rewrittenLine l0 := by
  cases l0 with
  | ifNone ind =>
    simp only [renderLine, rewrittenLine]
    rw [peftRewrite_indent ind _ h]
    rw [show peftRewrite peftPat3 = ifFalseTxt from by decide]
  | ifNotNone ind =>
    simp only [renderLine, rewrittenLine]
    rw [peftRewrite_indent ind _ h]
    rw [show peftRewrite peftPat4 = ifFalseTxt from by decide]
  | elifNone ind =>
    simp only [renderLine, rewrittenLine]
    rw [peftRewrite_indent ind _ h]
    rw [show peftRewrite peftPat1 = elifFalseTxt from by decide]
  | elifNotNone ind =>
    simp only [renderLine, rewrittenLine]
    rw [peftRewrite_indent ind _ h]
    rw [show peftRewrite peftPat2 = elifFalseTxt from by decide]
  | getPeft pre post =>
    obtain ⟨hnp, hnq, hocc, hpost, h1, h2, h3, h4⟩ := h
    simp only [renderLine, rewrittenLine, peftRewrite]
    rw [replaceAll_of_no_occurrence _ h1, replaceAll_of_no_occurrence _ h2,
      replaceAll_of_no_occurrence _ h3, replaceAll_of_no_occurrence _ h4]
    have hocc2 : ∀ i < pre.length,
        ¬ (getPeftPat.isPrefixOf ((pre ++ (getPeftPat ++ post)).drop i) = true) := by
      intro i hi
      rw [← List.append_assoc]
      exact hocc i hi
    have hshape : pre ++ getPeftPat ++ post = pre ++ (getPeftPat ++ post) :=
      List.append_assoc _ _ _
    rw [hshape, replaceAll_distrib (by decide) pre post hocc2,
      replaceAll_of_no_occurrence post hpost]
    simp [List.append_assoc]
  | plain content =>
    obtain ⟨hnl, h1, h2, h3, h4, h5⟩ := h
    simp only [renderLine, rewrittenLine, peftRewrite]
    rw [replaceAll_of_no_occurrence _ h1, replaceAll_of_no_occurrence _ h2, replaceAll_of_no_occurrence _ h3,
      replaceAll_of_no_occurrence _ h4, replaceAll_of_no_occurrence _ h5]

/-! ## Claim C3: the `patch_vllm` peft rewrite and class rename -/

/-- C3.  (a) On any `__init__` source made of well-formed lines, the five
sequential `str.replace` calls of `patch_vllm` turn every
`if/elif peft_config is (not) None:` header line into the corresponding
`if False:`/`elif False:` line, replace every
`get_peft_model(model, peft_config)` occurrence by `model`, and leave every
other line unchanged.  (b) The final rename replaces exactly the first
occurrence of `class <RLTrainer_name>` in the full class source (any
occurrence-free prefix `a` is kept, the first occurrence is renamed, and the
remainder `b` is kept verbatim). -/
theorem c3_peft_rewrite_and_rename :
    (∀ lines : List SrcLine, (∀ l0 ∈ lines, okLine l0) →
      peftRewrite (joinNL (lines.map renderLine)) = joinNL (lines.map rewrittenLine)) ∧
    (∀ (name a b : List Char),
      (∀ i < a.length,
        ¬ (("class ".data ++ name).isPrefixOf
            ((a ++ (("class ".data ++ name) ++ b)).drop i) = true)) →
      renameFirstClass name (a ++ (("class ".data ++ name) ++ b))
        = a ++ (("class _Unsloth".data ++ name) ++ b)) := by
  constructor
  · intro lines hok
    have hnl : ∀ l0 ∈ lines.map renderLine, '\n' ∉ l0 := by
      intro l0 hm
      obtain ⟨l1, hm1, rfl⟩ := List.mem_map.mp hm
      exact renderLine_no_newline l1 (hok l1 hm1)
    rw [peftRewrite_joinNL _ hnl, List.map_map]
    exact List.map_congr_left (fun l1 hm => peftRewrite_line l1 (hok l1 hm)) ▸ rfl
  · intro name a b hocc
    have hne : ("class ".data ++ name) ≠ [] := by simp
    exact replaceFirst_distrib hne a b hocc

/-- C3 witness: a three-line source (an `elif` header, a `get_peft_model`
assignment, a plain line) rewritten by the five replacements, and a concrete
first-occurrence class rename. -/
theorem c3_witness :
    peftRewrite (joinNL (List.map renderLine
      [SrcLine.elifNone "    ".data, SrcLine.getPeft "  model = ".data [],
       SrcLine.plain "        x = 1".data]))
      = joinNL (List.map rewrittenLine
      [SrcLine.elifNone "    ".data, SrcLine.getPeft "  model = ".data [],
       SrcLine.plain "        x = 1".data]) ∧
    renameFirstClass "GRPOTrainer".data
        ("# header\n".data ++ (("class ".data ++ "GRPOTrainer".data) ++ "(Trainer):\n".data))
      = "# header\n".data ++ (("class _Unsloth".data ++ "GRPOTrainer".data) ++ "(Trainer):\n".data) :=
  ⟨c3_peft_rewrite_and_rename.1 _
      (by
        intro l0 hm
        fin_cases hm <;> (simp only [okLine]; decide)),
   c3_peft_rewrite_and_rename.2 "GRPOTrainer".data _ _ (by decide)⟩

/-! ## Infix decomposition over concatenation (for claim C6) -/

theorem infix_append_cases {l xs ys : List Char} (h : l <:+: xs ++ ys) :
    l <:+: xs ∨ l <:+: ys ∨
      ∃ p q, l = p ++ q ∧ p ≠ [] ∧ q ≠ [] ∧ p <:+ xs ∧ q <+: ys := by
  obtain ⟨s, t, hst⟩ := h
  rcases List.append_eq_append_iff.mp hst with ⟨a', ha1, _⟩ | ⟨c', hc1, hc2⟩
  · left
    exact ⟨s, a', by rw [ha1, List.append_assoc]⟩
  · rcases List.append_eq_append_iff.mp hc1 with ⟨a2, hb1, hb2⟩ | ⟨c2, hd1, hd2⟩
    · by_cases ha2nil : a2 = []
      · subst ha2nil
        right; left
        refine ⟨[], t, ?_⟩
        rw [hc2]
        simp only [List.nil_append] at hb2 ⊢
        rw [hb2]
      · by_cases hcnil : c' = []
        · subst hcnil
          left
          refine ⟨s, [], ?_⟩
          rw [hb1]
          simp only [List.append_nil] at hb2 ⊢
          rw [hb2]
        · right; right
          exact ⟨a2, c', hb2, ha2nil, hcnil, ⟨s, hb1.symm⟩, ⟨t, hc2.symm⟩⟩
    · right; left
      exact ⟨c2, t, by rw [hc2, hd2, List.append_assoc]⟩

/-- If a pattern contains a character `c0` that appears neither in the middle
segment `tfc` nor in the tail `B`, does not occur in the head `A`, and no
nonempty proper prefix of the pattern is a suffix of `A`, then the pattern
does not occur in `A ++ tfc ++ B` at all. -/
theorem not_infix_of_three_parts (pat A tfc B : List Char) (c0 : Char)
    (hc0 : c0 ∈ pat)
    (hA : ¬ (pat <:+: A))
    (hA2 : ∀ n, n < pat.length → 0 < n → ¬ ((pat.take n) <:+ A))
    (htf : c0 ∉ tfc) (hB : c0 ∉ B) :
    ¬ (pat <:+: (A ++ (tfc ++ B))) := by
  intro h
  rcases infix_append_cases h with h | h | ⟨p, q, hpq, hp, hq, hpA, _⟩
  · exact hA h
  · rcases infix_append_cases h with h | h | ⟨p, q, hpq, _, _, hpt, hqB⟩
    · exact htf (h.sublist.subset hc0)
    · exact hB (h.sublist.subset hc0)
    · rcases List.mem_append.mp (hpq ▸ hc0) with hm | hm
      · exact htf (hpt.sublist.subset hm)
      · exact hB (hqB.sublist.subset hm)
  · have hppos : 0 < p.length := List.length_pos.mpr hp
    have hplen : p.length < pat.length := by
      rw [hpq, List.length_append]
      have := List.length_pos.mpr hq
      omega
    have hptake : p = pat.take p.length := by rw [hpq, List.take_left]
    exact hA2 p.length hplen hppos (hptake ▸ hpA)

/-- The `mixed_precision` block cannot occur in any assembled tail of the
preamble whose concrete part lacks both the marker `use_bf16` and every
dangling prefix of it, when the trainer file name is made of lowercase
letters and underscores. -/
theorem no_mixed_in_rest (A tf : List Char) (h1tf : '1' ∉ tf)
    (hA : ¬ ("use_bf16".data <:+: A))
    (hA2 : ∀ n, n < ("use_bf16".data).length → 0 < n → ¬ (("use_bf16".data).take n <:+ A)) :
    ¬ (mixed_precision <:+: (A ++ (tf ++ "')\n".data))) := by
  intro hinf
  have hmark : "use_bf16".data <:+: mixed_precision := by decide
  exact not_infix_of_three_parts "use_bf16".data A tf "')\n".data '1' (by decide)
    hA hA2 h1tf (by decide) (hmark.trans hinf)

/-- `containsSub` is the substring (infix) test. -/
theorem containsSub_eq_true_iff (hay needle : List Char) :
    containsSub hay needle = true ↔ needle <:+: hay := by
  induction hay with
  | nil =>
    cases needle with
    | nil => simp [containsSub, List.isPrefixOf]
    | cons n ns => simp [containsSub, List.isPrefixOf, List.infix_nil]
  | cons c t ih =>
    rw [containsSub]
    cases hb : needle.isPrefixOf (c :: t) with
    | true =>
      simp only [if_true]
      exact iff_of_true trivial ( List.IsPrefix.isInfix (( List.isPrefixOf_iff_prefix).mp hb))
    | false =>
      simp only [Bool.false_eq_true, if_false]
      rw [ih, List.infix_cons_iff]
      constructor
      · exact Or.inr
      · rintro (hpre | hinf)
        · rw [← List.isPrefixOf_iff_prefix, hb] at hpre
          cases hpre
        · exact hinf

/-- Substring-freeness established by evaluating the executable test. -/
theorem not_infix_of_containsSub_false {hay needle : List Char}
    (h : containsSub hay needle = false) : ¬ (needle <:+: hay) := by
  intro hinf
  rw [← containsSub_eq_true_iff, h] at hinf
  cases hinf

/-! ## Claim C6: the mixed-precision auto-detection block -/

/-- C6.  For a trainer file name made of lowercase letters and underscores
(as every `trl.trainer` submodule name is), the mixed-precision
auto-detection block occurs in the synthesized trainer `__init__`
`extra_args` if and only if both `"args"` and `"model"` occur in the
forwarded call-arguments text. -/
theorem c6_mixed_precision_iff (ca tf : List Char)
    (htf : ∀ c ∈ tf, c.isLower = true ∨ c = '_') :
    (mixed_precision <:+: trainerExtraArgs ca tf) ↔
      (containsSub ca "args".data = true ∧ containsSub ca "model".data = true) := by
  have h1tf : '1' ∉ tf := by
    intro hm
    rcases htf '1' hm with h | h
    · exact absurd h (by decide)
    · exact absurd h (by decide)
  constructor
  · intro hinf
    by_contra hc
    cases hb1 : containsSub ca "args".data with
    | true =>
      cases hb2 : containsSub ca "model".data with
      | true => exact hc ⟨hb1, hb2⟩
      | false =>
        cases hb3 : containsSub ca "eval_dataset".data with
        | true =>
          have hshape : trainerExtraArgs ca tf =
              (check_eval_dataset ++ (check_ga ++ (eval_changes ++ statsHead))) ++
                (tf ++ "')\n".data) := by
            simp [trainerExtraArgs, hb1, hb2, hb3, statsBlock, List.append_assoc]
          rw [hshape] at hinf
          exact no_mixed_in_rest _ tf h1tf
            (not_infix_of_containsSub_false (by decide)) (by decide) hinf
        | false =>
          have hshape : trainerExtraArgs ca tf =
              (check_ga ++ (eval_changes ++ statsHead)) ++ (tf ++ "')\n".data) := by
            simp [trainerExtraArgs, hb1, hb2, hb3, statsBlock, List.append_assoc]
          rw [hshape] at hinf
          exact no_mixed_in_rest _ tf h1tf
            (not_infix_of_containsSub_false (by decide)) (by decide) hinf
    | false =>
      cases hb2 : containsSub ca "model".data with
      | true =>
        have hshape : trainerExtraArgs ca tf =
            (length_check ++ (training_check ++ statsHead)) ++ (tf ++ "')\n".data) := by
          simp [trainerExtraArgs, hb1, hb2, statsBlock, List.append_assoc]
        rw [hshape] at hinf
        exact no_mixed_in_rest _ tf h1tf
          (not_infix_of_containsSub_false (by decide)) (by decide) hinf
      | false =>
        have hshape : trainerExtraArgs ca tf =
            statsHead ++ (tf ++ "')\n".data) := by
          simp [trainerExtraArgs, hb1, hb2, statsBlock, List.append_assoc]
        rw [hshape] at hinf
        exact no_mixed_in_rest _ tf h1tf
          (not_infix_of_containsSub_false (by decide)) (by decide) hinf
  · rintro ⟨hb1, hb2⟩
    have h : trainerExtraArgs ca tf =
        mixed_precision ++
          (((if containsSub ca "eval_dataset".data = true then check_eval_dataset else []) ++
            check_ga ++ eval_changes) ++
           ((length_check ++ training_check) ++ statsBlock tf)) := by
      simp [trainerExtraArgs, hb1, hb2, List.append_assoc]
    rw [h]
    exact List.IsPrefix.isInfix (List.prefix_append _ _)

/-- C6 witness: a call-arguments text mentioning both `args` and `model`, with
the concrete trainer file `grpo_trainer`. -/
theorem c6_witness :
    (∀ c ∈ "grpo_trainer".data, c.isLower = true ∨ c = '_') ∧
    ((mixed_precision <:+: trainerExtraArgs "args = args, model = model".data "grpo_trainer".data) ↔
      (containsSub "args = args, model = model".data "args".data = true ∧
       containsSub "args = args, model = model".data "model".data = true)) :=
  ⟨by decide,
   c6_mixed_precision_iff "args = args, model = model".data "grpo_trainer".data (by decide)⟩
